import Mathlib

/-!
# Verification of the redis-rs cluster client core

A shallow embedding of `src/redis/src/cluster.rs` and
`src/redis/src/cluster_async/mod.rs` (the Redis Cluster client of the
amazon-contributing redis-rs fork), together with proofs about the slot-map
construction, topology selection, pipeline routing, the request retry loops
and address parsing.

Conventions of the embedding:
* Rust `u16`/`u64`/`usize` values are `Nat` with explicit `% 2 ^ w` where a
  cast can wrap (`i64 as u16` is `Int.emod · 65536`).
* Fallible Rust functions returning `RedisResult` become `Except RErr ·`.
* In-place mutation (e.g. `build_slot_map(&mut SlotMap, ..)`) is explicit
  state passing: the function returns the result together with the new map.
* Code that is part of the repository but outside the provided sources
  (`cluster_routing`, `cluster_pipeline`, the connections container) is
  modelled from the spec; every such definition carries a doc comment
  starting with `Modelled from the spec:`.
-/

namespace RedisCluster

/-- RESP values, as far as the cluster core inspects them
(`redis::Value` restricted to the constructors the embedded code matches on). -/
inductive RValue : Type where
  | nil : RValue
  | int : Int → RValue
  | data : String → RValue
  | bulk : List RValue → RValue

/-- `TlsMode` from `cluster.rs`. -/
inductive TlsMode : Type where
  | secure
  | insecure
deriving DecidableEq, Repr

/-- The error values the embedded functions produce.  Each constructor
corresponds to one `RedisError` construction site in the sources; payloads
keep the data interpolated into the Rust format strings. -/
inductive RErr : Type where
  /-- `"Received overlapping slots {prev} and {start}..{end}"` (`build_slot_map`). -/
  | overlapping (prevEnd start endSlot : Nat) : RErr
  /-- `"Lacks the slots >= {last_slot}"` (`build_slot_map`). -/
  | lacksSlots (lastSlot : Nat) : RErr
  /-- `"Slot refresh error: All CLUSTER SLOTS results are errors"`. -/
  | allResultsErrors : RErr
  /-- `"Slot refresh error: Couldn't get a majority in topology views"`. -/
  | majority : RErr
  /-- `"Slot refresh error: The accuracy of the topology view is too low"`. -/
  | accuracyTooLow : RErr
  /-- `(ErrorKind::CrossSlot, "Received crossed slots in pipeline")`. -/
  | crossSlot : RErr
  /-- Modelled from the spec: `cluster_pipeline::UNROUTABLE_ERROR`, the
  `ClientError("This command cannot be safely routed in cluster mode")`
  constant (its definition is outside the provided sources). -/
  | unroutable : RErr
  /-- `(ErrorKind::ClusterDown, "Missing slot coverage")` (`get_addr_for_cmd`). -/
  | clusterDownMissingCoverage : RErr
  /-- Aggregation of a non-integer response (modelled numeric-reduce failure). -/
  | notAnInt : RErr
deriving DecidableEq, Repr

/-- `cluster_routing::SLOT_SIZE` (= 16384). -/
def SLOT_SIZE : Nat := 16384

/-- `cluster_routing::Slot`: a contiguous range with a primary and replicas.
`startSlot`/`endSlot` stand for the Rust fields `start`/`end`. -/
structure Slot : Type where
  startSlot : Nat
  endSlot : Nat
  master : String
  replicas : List String
deriving DecidableEq, Repr

/-- `cluster_routing::SlotAddrs`: the owners of one slot range. -/
structure SlotAddrs : Type where
  primary : String
  replicas : List String
deriving DecidableEq, Repr

/-- One entry of the slot map: a range together with its owners. -/
structure SlotMapEntry : Type where
  startSlot : Nat
  endSlot : Nat
  addrs : SlotAddrs
deriving DecidableEq, Repr

/-- Modelled from the spec: `cluster_routing::SlotMap` — "an ordered structure
keyed by slot ranges supporting lookup from a slot number to SlotAddrs"
(its definition is outside the provided sources).  Rendered as the ordered
list of range entries. -/
abbrev SlotMap : Type := List SlotMapEntry

/-- `SlotMap::new()`. -/
def SlotMap.new : SlotMap := []

/-- The comparison used by `slots_data.sort_by_key(|s| s.start())`. -/
def slotStartLe (a b : Slot) : Prop := a.startSlot ≤ b.startSlot

instance : DecidableRel slotStartLe := fun _ _ => Nat.decLe _ _

instance : IsTotal Slot slotStartLe := ⟨fun a b => Nat.le_total a.startSlot b.startSlot⟩

instance : IsTrans Slot slotStartLe := ⟨fun _ _ _ => Nat.le_trans⟩

/-- `slots_data.sort_by_key(|slot_data| slot_data.start())` in `build_slot_map`. -/
def sortByStart (slotsData : List Slot) : List Slot := List.insertionSort slotStartLe slotsData

/-- The `try_fold` of `build_slot_map`: starting from `0`, each range must
begin exactly where the previous one ended (`prev_end != slot_data.start()`
fails with the "overlapping" error), and the accumulator becomes
`slot_data.end() + 1`.  The fold runs in `u16` (the accumulator's type is
inferred from `slot_data.start()`, and `Slot` fields are the `u16`s produced
by the `as u16` casts in `parse_slots`), so the addition is taken mod
`2^16`: a range ending at `65535` wraps the accumulator back to `0`. -/
def checkChain : Nat → List Slot → Except RErr Nat
  | prevEnd, [] => .ok prevEnd
  | prevEnd, sl :: rest =>
    if prevEnd ≠ sl.startSlot then .error (.overlapping prevEnd sl.startSlot sl.endSlot)
    else checkChain ((sl.endSlot + 1) % 65536) rest

/-- Modelled from the spec: `SlotMap::fill_slots` (outside the provided
sources) — installs one entry per parsed range; replica addresses are kept
only when `read_from_replicas` is enabled. -/
def fillSlots (slotsData : List Slot) (readFromReplicas : Bool) : SlotMap :=
  slotsData.map fun sl =>
    ⟨sl.startSlot, sl.endSlot, ⟨sl.master, if readFromReplicas then sl.replicas else []⟩⟩

/-- `build_slot_map` (`cluster.rs:790-823`).  The Rust function mutates the
map passed by reference; here the returned pair carries the result and the
final state of that map: validation errors leave it exactly as given, and
only after both coverage checks pass is it cleared and refilled. -/
def build_slot_map (slotMap : SlotMap) (slotsData : List Slot) (readFromReplicas : Bool) :
    Except RErr Unit × SlotMap :=
  let sorted := sortByStart slotsData
  match checkChain 0 sorted with
  | .error e => (.error e, slotMap)
  | .ok lastSlot =>
    if lastSlot ≠ SLOT_SIZE then (.error (.lacksSlots lastSlot), slotMap)
    else (.ok (), fillSlots sorted readFromReplicas)

/-- The `i64 as u16` cast used on the `start`/`end`/`port` fields in
`parse_slots`: truncation to the low 16 bits. -/
def toU16 (i : Int) : Nat := (i % 65536).toNat

/-- `get_connection_addr(ip, port, tls).to_string()`: the `Display` of
`ConnectionAddr` is outside the provided sources; per the spec, node
addresses are `host:port` strings (the TLS flag does not change the text
the cluster core keys nodes by), so the address is rendered uniformly. -/
def addrString (host : String) (port : Nat) (_tls : Option TlsMode) : String :=
  host ++ ":" ++ toString port

/-- The per-node closure inside `parse_slots`: a node entry must be a bulk of
at least two items, `node[0]` a non-empty `Data` ip and `node[1]` an `Int`
port; anything else is skipped (`filter_map`). -/
def parseNode (tls : Option TlsMode) : RValue → Option String
  | .bulk node =>
    if node.length < 2 then none
    else
      match node[0]? with
      | some (RValue.data ip) =>
        if ip = "" then none
        else
          match node[1]? with
          | some (RValue.int port) => some (addrString ip (toU16 port) tls)
          | _ => none
      | _ => none
  | _ => none

/-- The `while let Some(Value::Bulk(item)) = iter.next()` loop of
`parse_slots`: the scan stops at the first element that is not a bulk;
entries with fewer than three items, a non-`Int` start or end, or no usable
node are skipped; otherwise the first parsed node is the primary and the
rest are replicas. -/
def parseSlotItems (tls : Option TlsMode) : List RValue → List Slot
  | .bulk item :: rest =>
    let parsedRest := parseSlotItems tls rest
    if item.length < 3 then parsedRest
    else
      match item[0]? with
      | some (RValue.int s) =>
        match item[1]? with
        | some (RValue.int e) =>
          match (item.drop 2).filterMap (parseNode tls) with
          | [] => parsedRest
          | master :: replicas => ⟨toU16 s, toU16 e, master, replicas⟩ :: parsedRest
        | _ => parsedRest
      | _ => parsedRest
  | _ => []

/-- `parse_slots` (`cluster.rs:725-788`).  Note that the Rust function never
returns `Err`: unusable input yields an empty (or truncated) slot list. -/
def parse_slots (rawSlotResp : RValue) (tls : Option TlsMode) : List Slot :=
  match rawSlotResp with
  | .bulk items => parseSlotItems tls items
  | _ => []

/-- `TopologyView` (`cluster.rs:691-698`); `hashValue` is the `u64`
structural hash of the raw response, `nodesCount` the number of sampled
nodes that reported this view. -/
structure TopologyView : Type where
  hashValue : Nat
  topologyValue : RValue
  nodesCount : Nat

/-- The `hash_view_map` construction of `calculate_topology`: group the raw
views by hash value, counting occurrences.  The Rust `HashMap` iterates in
an unspecified order; the embedding determinizes it to first-insertion
order. -/
def bumpView (h : Nat) (view : RValue) : List TopologyView → List TopologyView
  | [] => [⟨h, view, 1⟩]
  | tv :: tl =>
    if tv.hashValue = h then ⟨tv.hashValue, tv.topologyValue, tv.nodesCount + 1⟩ :: tl
    else tv :: bumpView h view tl

/-- The `hash_view_map` construction folded over the sampled views in order. -/
def buildViewMap (hashFn : RValue → Nat) (views : List RValue) : List TopologyView :=
  views.foldl (fun acc view => bumpView (hashFn view) view acc) []

/-- One step of the most-frequent-view scan of `calculate_topology`
(`cluster.rs:910-926`).  `TopologyView`'s derived `Ord` compares only
`nodes_count`; the `match max_view.cmp(curr_view)` is rendered as the
corresponding `<` / `=` / `>` tests. -/
def mostFrequentStep (acc : Option TopologyView × Bool) (curr : TopologyView) :
    Option TopologyView × Bool :=
  match acc.1 with
  | none => (some curr, acc.2)
  | some maxView =>
    if maxView.nodesCount < curr.nodesCount then (some curr, false)
    else if maxView.nodesCount = curr.nodesCount then (some maxView, true)
    else (some maxView, acc.2)

/-- The most-frequent-view scan: returns the running maximum and the
`has_more_than_a_single_max` flag. -/
def findMostFrequent (viewMap : List TopologyView) : Option TopologyView × Bool :=
  viewMap.foldl mostFrequentStep (none, false)

/-- The last-retry test of `calculate_topology`:
`retries.is_some() && retries.unwrap().fetch_sub(1, SeqCst) == 1` — the
previous counter value is 1 exactly when the counter holds 1. -/
def isLastRetry (retries : Option Nat) : Bool := retries = some 1

/-- The tied-views loop of `calculate_topology` (`cluster.rs:937-953`):
every collected view is tried in map order against the threaded `new_slots`
map; the first that builds a fully-covering map is returned.  When a view
fails to build, its error is surfaced immediately only if the view's *hash
value* (the map key `idx`, cast to `usize`) equals `hash_view_map.len() - 1`;
otherwise the scan continues, and exhaustion falls through to the
couldn't-get-a-majority error after the loop. -/
def tryAllViews (tls : Option TlsMode) (readFromReplicas : Bool) (mapLen : Nat) :
    List TopologyView → SlotMap → Except RErr SlotMap
  | [], _ => .error .majority
  | tv :: rest, m =>
    match build_slot_map m (parse_slots tv.topologyValue tls) readFromReplicas with
    | (.ok _, m') => .ok m'
    | (.error e, m') =>
      if tv.hashValue = mapLen - 1 then .error e
      else tryAllViews tls readFromReplicas mapLen rest m'

/-- The accuracy test of `calculate_topology`:
`nodes_count as f32 / num_of_queried_nodes as f32 >= 0.2`.  The `f32`
division is modelled rationally as `5 * count ≥ queried`; `queried = 0`
gives `+inf ≥ 0.2` in Rust (counts are at least 1), hence `true`. -/
def accuracyOk (count queried : Nat) : Bool := queried = 0 || queried ≤ 5 * count

/-- `calculate_topology` (`cluster.rs:881-972`).  `hashFn` stands for
`calculate_hash` (a `DefaultHasher`, external to the sources); `retries`
for the `Option<Arc<AtomicUsize>>` counter. -/
def calculate_topology (topologyViews : List RValue) (retries : Option Nat)
    (tlsMode : Option TlsMode) (readFromReplicas : Bool) (numOfQueriedNodes : Nat)
    (hashFn : RValue → Nat) : Except RErr SlotMap :=
  if topologyViews.isEmpty then .error .allResultsErrors
  else
    let hashViewMap := buildViewMap hashFn topologyViews
    match findMostFrequent hashViewMap with
    | (none, _) => .error .allResultsErrors
    | (some mostFrequentTopology, hasMoreThanASingleMax) =>
      if hasMoreThanASingleMax then
        if isLastRetry retries || numOfQueriedNodes < 3 then
          tryAllViews tlsMode readFromReplicas hashViewMap.length hashViewMap SlotMap.new
        else .error .majority
      else
        if accuracyOk mostFrequentTopology.nodesCount numOfQueriedNodes then
          match build_slot_map SlotMap.new
              (parse_slots mostFrequentTopology.topologyValue tlsMode) readFromReplicas with
          | (.ok _, m') => .ok m'
          | (.error e, _) => .error e
        else .error .accuracyTooLow

/-- `cluster_routing::SlotAddr`. -/
inductive SlotAddr : Type where
  | master
  | replicaOptional
  | replicaRequired
deriving DecidableEq, Repr

/-- `cluster_routing::Route`: a slot number together with the required
node role. -/
structure Route : Type where
  slot : Nat
  slotAddr : SlotAddr
deriving DecidableEq, Repr

/-- `cluster_routing::SingleNodeRoutingInfo`. -/
inductive SingleNodeRoutingInfo : Type where
  | random
  | specificNode (route : Route)
deriving DecidableEq, Repr

/-- `cluster_routing::ResponsePolicy::Aggregate`'s numeric operation
(modelled from the spec; only `Sum` is exercised by the embedded code). -/
inductive AggregateOp : Type where
  | sum
deriving DecidableEq, Repr

/-- `cluster_routing::LogicalAggregateOp` (modelled from the spec). -/
inductive LogicalAggregateOp : Type where
  | and
deriving DecidableEq, Repr

/-- `cluster_routing::ResponsePolicy`. -/
inductive ResponsePolicy : Type where
  | allSucceeded
  | oneSucceeded
  | oneSucceededNonEmpty
  | aggregate (op : AggregateOp)
  | aggregateLogical (op : LogicalAggregateOp)
  | combineArrays
  | special
deriving DecidableEq, Repr

/-- `cluster_routing::MultipleNodeRoutingInfo`. -/
inductive MultipleNodeRoutingInfo : Type where
  | allNodes
  | allMasters
  | multiSlot (routes : List (Route × List Nat))
deriving DecidableEq, Repr

/-- `cluster_routing::RoutingInfo`.  The multi-node payload carries the
optional response policy, as matched by the async module. -/
inductive RoutingInfo : Type where
  | singleNode (info : SingleNodeRoutingInfo)
  | multiNode (info : MultipleNodeRoutingInfo) (policy : Option ResponsePolicy)
deriving DecidableEq, Repr

/-- A command, as far as the embedded routing code observes it:
`RoutingInfo::for_routable(cmd)` is the only interface through which
`route_for_pipeline`, `get_addr_for_cmd` and `request` inspect a command, so
a command is represented by that routing answer (`none` = unroutable). -/
abbrev CmdRouting : Type := Option RoutingInfo

/-- The inner `route_for_command` of `route_for_pipeline`
(`cluster_async/mod.rs:254-263`): only a specific single-node route
constrains the pipeline; `Random`, multi-node and unroutable commands
contribute nothing. -/
def routeForCommand : CmdRouting → Option Route
  | some (.singleNode .random) => none
  | some (.singleNode (.specificNode route)) => some route
  | some (.multiNode _ _) => none
  | none => none

/-- The `try_fold` step of `route_for_pipeline`
(`cluster_async/mod.rs:267-282`). -/
def pipelineFoldStep (chosenRoute nextCmdRoute : Option Route) : Except RErr (Option Route) :=
  match chosenRoute, nextCmdRoute with
  | none, _ => .ok nextCmdRoute
  | _, none => .ok chosenRoute
  | some chosen, some next =>
    if chosen.slot ≠ next.slot then .error .crossSlot
    else if chosen.slotAddr = SlotAddr.replicaOptional then .ok (some next)
    else .ok (some chosen)

/-- The `try_fold` driving `route_for_pipeline`, written as the explicit
error-short-circuiting recursion. -/
def pipelineFoldGo : Option Route → List (Option Route) → Except RErr (Option Route)
  | acc, [] => .ok acc
  | acc, x :: rest =>
    match pipelineFoldStep acc x with
    | .error e => .error e
    | .ok acc' => pipelineFoldGo acc' rest

/-- `route_for_pipeline` (`cluster_async/mod.rs:253-283`): fold the
per-command routes, rejecting distinct specific slots with `CrossSlot`. -/
def route_for_pipeline (cmds : List CmdRouting) : Except RErr (Option Route) :=
  pipelineFoldGo none (cmds.map routeForCommand)

/-- Modelled from the spec: `SlotMap::slot_addr_for_route` (outside the
provided sources) — resolve a slot number to the owning range, then pick
the primary for `Master` and a replica (falling back to the primary when
none is recorded) otherwise. -/
def SlotMap.slotAddrForRoute (m : SlotMap) (route : Route) : Option String :=
  (m.find? fun e => decide (e.startSlot ≤ route.slot) && decide (route.slot ≤ e.endSlot)).map
    fun e =>
      match route.slotAddr with
      | .master => e.addrs.primary
      | _ => e.addrs.replicas.headD e.addrs.primary

/-- The `addr_for_slot` closure of `get_addr_for_cmd` (`cluster.rs:364-387`):
resolve a route through the slot map, failing with
`(ClusterDown, "Missing slot coverage")` when no range owns the slot. -/
def addrForSlot (slots : SlotMap) (route : Route) : Except RErr String :=
  match slots.slotAddrForRoute route with
  | some addr => .ok addr
  | none => .error .clusterDownMissingCoverage

/-- The dispatch of `get_addr_for_cmd` on `RoutingInfo::for_routable`: a
random single-node route is resolved at a freshly drawn random slot
(`randomSlot` stands for `rng.gen_range(0..SLOT_SIZE)`), a specific route at
its own slot; the `_` arm — unroutable and multi-node commands alike —
fails with `UNROUTABLE_ERROR`. -/
def get_addr_for_cmd (slots : SlotMap) (cmd : CmdRouting) (randomSlot : Nat) :
    Except RErr String :=
  match cmd with
  | some (.singleNode .random) => addrForSlot slots ⟨randomSlot % SLOT_SIZE, .master⟩
  | some (.singleNode (.specificNode route)) => addrForSlot slots route
  | _ => .error .unroutable

/-- `NodeCmd` (`cluster.rs:670-686`): the per-node sub-pipeline; the packed
byte pipe is out of scope (framing is external), the original command
indexes are kept. -/
structure NodeCmd : Type where
  indexes : List Nat
  addr : String
deriving DecidableEq, Repr

/-- Append a command index to the node's entry, inserting the node at the
end on first use (`cmd_map.entry(addr).or_insert_with(..)`; the Rust
`HashMap` drain order is unspecified and is determinized here to
first-insertion order). -/
def addCmdToNode (addr : String) (idx : Nat) : List NodeCmd → List NodeCmd
  | [] => [⟨[idx], addr⟩]
  | nc :: rest =>
    if nc.addr = addr then ⟨nc.indexes ++ [idx], nc.addr⟩ :: rest
    else nc :: addCmdToNode addr idx rest

/-- The indexed fold inside `map_cmds_to_nodes`. -/
def mapCmdsGo (slots : SlotMap) (randFn : Nat → Nat) :
    List CmdRouting → Nat → List NodeCmd → Except RErr (List NodeCmd)
  | [], _, acc => .ok acc
  | cmd :: rest, idx, acc =>
    match get_addr_for_cmd slots cmd (randFn idx) with
    | .error e => .error e
    | .ok addr => mapCmdsGo slots randFn rest (idx + 1) (addCmdToNode addr idx acc)

/-- `map_cmds_to_nodes` (`cluster.rs:389-406`): route every command of the
pipeline to its node, failing the whole pipeline on the first command that
does not resolve.  `randFn` supplies the random slot drawn for each
`Random`-routed command. -/
def map_cmds_to_nodes (slots : SlotMap) (cmds : List CmdRouting) (randFn : Nat → Nat) :
    Except RErr (List NodeCmd) :=
  mapCmdsGo slots randFn cmds 0 []

/-- Keep the first occurrence of each address
(`nodes.sort_unstable(); nodes.dedup()`-style uniqueness, order-preserving). -/
def dedupKeepFirst (l : List String) : List String :=
  l.foldl (fun acc a => if a ∈ acc then acc else acc ++ [a]) []

/-- Modelled from the spec: `SlotMap::addresses_for_multi_routing` (outside
the provided sources) — "all-masters returns every primary once; all-nodes
returns every primary and replica; multi-slot resolves each route
independently". -/
def SlotMap.addressesForMultiRouting (m : SlotMap) : MultipleNodeRoutingInfo → List String
  | .allMasters => dedupKeepFirst (m.map fun e => e.addrs.primary)
  | .allNodes => dedupKeepFirst (m.flatMap fun e => e.addrs.primary :: e.addrs.replicas)
  | .multiSlot routes => routes.filterMap fun rt => m.slotAddrForRoute rt.1

/-- `MergeResults::merge_results` for `Value` (`cluster.rs:654-662`): the
per-address results become a bulk of `[address-bytes, value]` pairs. -/
def mergeResultsValue (results : List (String × RValue)) : RValue :=
  .bulk (results.map fun p => .bulk [.data p.1, p.2])

/-- The dispatch loop of `execute_on_multiple_nodes` (`cluster.rs:417-428`):
addresses without a connection are silently skipped (the `if let Some` —
the TODO in the source), and a failing sub-request aborts the whole call
through the `?`. -/
def executeMultiGo (connAddrs : List String) (func : String → Except RErr RValue) :
    List String → Except RErr (List (String × RValue))
  | [] => .ok []
  | addr :: rest =>
    if addr ∈ connAddrs then
      match func addr with
      | .error e => .error e
      | .ok v =>
        match executeMultiGo connAddrs func rest with
        | .error e => .error e
        | .ok tl => .ok ((addr, v) :: tl)
    else executeMultiGo connAddrs func rest

/-- `execute_on_multiple_nodes` (`cluster.rs:408-431`), the blocking
fan-out: compute the target addresses from the slot map, run `func` on every
target that has a connection, and merge the per-address results with
`MergeResults` — no response policy is consulted. -/
def execute_on_multiple_nodes (connAddrs : List String) (slots : SlotMap)
    (routing : MultipleNodeRoutingInfo) (func : String → Except RErr RValue) :
    Except RErr RValue :=
  (executeMultiGo connAddrs func (slots.addressesForMultiRouting routing)).map mergeResultsValue

/-- Modelled from the spec (helper): the running sum of the numeric reduce. -/
def aggregateSumGo (acc : Int) : List RValue → Except RErr Int
  | [] => .ok acc
  | v :: rest =>
    match v with
    | .int i => aggregateSumGo (acc + i) rest
    | _ => .error .notAnInt

/-- Modelled from the spec: `cluster_routing::aggregate` (outside the
provided sources) — "numeric reduce (e.g., SUM for DBSIZE) across
successes"; a non-integer response cannot be summed. -/
def aggregateSum (results : List RValue) : Except RErr Int :=
  aggregateSumGo 0 results

/-- Modelled from the spec (helper): the running value of the boolean
reduce. -/
def logicalAggregateGo (acc : Int) : List RValue → Except RErr Int
  | [] => .ok acc
  | v :: rest =>
    match v with
    | .int i => logicalAggregateGo (if acc = 0 ∨ i = 0 then (0 : Int) else 1) rest
    | _ => .error .notAnInt

/-- Modelled from the spec: `cluster_routing::logical_aggregate` — boolean
reduce over successes (integers standing for booleans). -/
def logicalAggregate (results : List RValue) : Except RErr Int :=
  logicalAggregateGo 1 results

/-- Modelled from the spec: `cluster_routing::combine_array_results` —
concatenate array responses. -/
def combineOne (acc : List RValue) : RValue → Except RErr (List RValue)
  | .bulk items => .ok (acc ++ items)
  | _ => .error .notAnInt

/-- Modelled from the spec (continued): the fold collecting the
concatenated arrays. -/
def combineArrayResults (results : List RValue) : Except RErr RValue :=
  (results.foldlM combineOne []).map .bulk

/-- The accumulator pass of `tryJoinAll`. -/
def tryJoinAllGo (acc : List RValue) : List (Except RErr RValue) → Except RErr (List RValue)
  | [] => .ok acc
  | r :: rest =>
    match r with
    | .error e => .error e
    | .ok v => tryJoinAllGo (acc ++ [v]) rest

/-- `future::try_join_all` over already-resolved receivers: the first error
in order fails the whole, otherwise all values are collected. -/
def tryJoinAll (results : List (Except RErr RValue)) : Except RErr (List RValue) :=
  tryJoinAllGo [] results

/-- The first successful result, or the last error (`future::select_ok` over
already-resolved receivers, resolved in list order). -/
def selectOk (results : List (Except RErr RValue)) : Except RErr RValue :=
  match results with
  | [] => .error .allResultsErrors
  | [r] => r
  | r :: rest => match r with | .ok v => .ok v | .error _ => selectOk rest

/-- `aggregate_results` (`cluster_async/mod.rs:717-797`), with every
receiver already resolved to its `RedisResult`: collapse the per-node
responses according to the response policy; `Special`/`None` returns the
address-keyed map. -/
def aggregate_results (receivers : List (String × Except RErr RValue))
    (_routing : MultipleNodeRoutingInfo) (responsePolicy : Option ResponsePolicy) :
    Except RErr RValue :=
  match responsePolicy with
  | some .allSucceeded =>
    (tryJoinAll (receivers.map Prod.snd)).map fun results => results.getLastD .nil
  | some .oneSucceeded => selectOk (receivers.map Prod.snd)
  | some .oneSucceededNonEmpty =>
    selectOk (receivers.map fun p =>
      match p.2 with
      | .ok .nil => .error .notAnInt
      | r => r)
  | some (.aggregate op) =>
    match op with
    | .sum => (tryJoinAll (receivers.map Prod.snd)).bind fun results =>
        (aggregateSum results).map .int
  | some (.aggregateLogical _) =>
    (tryJoinAll (receivers.map Prod.snd)).bind fun results =>
      (logicalAggregate results).map .int
  | some .combineArrays =>
    (tryJoinAll (receivers.map Prod.snd)).bind combineArrayResults
  | some .special | none =>
    (tryJoinAll (receivers.map Prod.snd)).map fun results =>
      mergeResultsValue (receivers.map Prod.fst |>.zip results)

/-- The coverage condition as the spec words it: sort by `start`, then
`slots[0].start == 0`, `slots[i].start == slots[i-1].end + 1` for `i > 0`,
and `slots[last].end == 16383`.  Stated on the already-sorted list. -/
def coverageSpec (l : List Slot) : Prop :=
  (∃ h, l.head? = some h ∧ h.startSlot = 0) ∧
    List.Chain' (fun a b => b.startSlot = a.endSlot + 1) l ∧
    ∃ la, l.getLast? = some la ∧ la.endSlot = SLOT_SIZE - 1

/-- Recursive form of the coverage condition: from `k`, the ranges follow
each other exactly and the walk ends at `SLOT_SIZE`. -/
def chainFrom : Nat → List Slot → Prop
  | k, [] => k = SLOT_SIZE
  | k, sl :: rest => sl.startSlot = k ∧ chainFrom (sl.endSlot + 1) rest

/-- `cluster_routing::Redirect`. -/
inductive Redirect : Type where
  | moved (addr : String)
  | ask (addr : String)
deriving DecidableEq, Repr

/-- The error kinds the retry loops classify on (`ErrorKind` restricted to
the arms of the `match err.kind()` in `ClusterConnection::request` and
`Request::poll`; every other kind is `other`). -/
inductive ErrKind : Type where
  | ask
  | moved
  | tryAgain
  | clusterDown
  | ioError
  | other
deriving DecidableEq, Repr

/-- One server error as the retry loops observe it: its kind, whether
`err.is_retryable()`, and `err.redirect_node()`. -/
structure DispatchError : Type where
  kind : ErrKind
  retryable : Bool
  node : Option String
deriving DecidableEq, Repr

/-- The outcome of one dispatch (`func(conn)` / the request future). -/
inductive Outcome : Type where
  | ok (v : RValue)
  | err (e : DispatchError)

/-- One recorded dispatch: where it went (`some addr` when a redirect chose
the target, `none` when the route / a random node did) and whether an
`ASKING` was fed into the connection first. -/
structure Attempt : Type where
  target : Option String
  asking : Bool
deriving DecidableEq, Repr

/-- The final answer of a retry loop. -/
inductive ReqResult : Type where
  | success (v : RValue)
  | failure (e : DispatchError)
  /-- The blocking loop's `self.refresh_slots()?` propagating a refresh error. -/
  | refreshFailure

/-- What one whole run of a retry loop did. -/
structure LoopTrace : Type where
  result : ReqResult
  attempts : List Attempt
  /-- how many times a slot refresh was triggered -/
  refreshes : Nat

/-- Target selection at the top of the blocking `request` loop
(`cluster.rs:456-475`): `redirected.take()` routes to the redirect address —
feeding `ASKING` first iff it was an `Ask` — and otherwise the route (or a
random node) decides. -/
def stepAttempt : Option Redirect → Attempt
  | some (.ask a) => ⟨some a, true⟩
  | some (.moved a) => ⟨some a, false⟩
  | none => ⟨none, false⟩

/-- The blocking `ClusterConnection::request` loop (`cluster.rs:434-527`).

`budget` is `number_of_retries - retries` (the loop's upward counter turned
into remaining fuel: the source returns the error when
`retries == number_of_retries`, i.e. when the fuel is exhausted).  `world i`
is the outcome of the `i`-th dispatch; `refreshFails i` tells whether the
`refresh_slots()` triggered after dispatch `i` fails (its `?` then
propagates).  Sleeps (TryAgain/ClusterDown) and the reconnection attempt on
IoError have no observable effect on the trace.  Note the blocking loop
consumes the redirect: every non-redirect classification re-enters with no
redirect set. -/
def requestGo (world : Nat → Outcome) (refreshFails : Nat → Bool) :
    Nat → Option Redirect → Nat → LoopTrace
  | budget, redirected, i =>
    let att := stepAttempt redirected
    match world i with
    | .ok v => ⟨.success v, [att], 0⟩
    | .err e =>
      match budget with
      | 0 => ⟨.failure e, [att], 0⟩
      | budget' + 1 =>
        match e.kind with
        | .ask =>
          let r := requestGo world refreshFails budget' (e.node.map .ask) (i + 1)
          ⟨r.result, att :: r.attempts, r.refreshes⟩
        | .moved =>
          if refreshFails i then ⟨.refreshFailure, [att], 1⟩
          else
            let r := requestGo world refreshFails budget' (e.node.map .moved) (i + 1)
            ⟨r.result, att :: r.attempts, r.refreshes + 1⟩
        | .tryAgain =>
          let r := requestGo world refreshFails budget' none (i + 1)
          ⟨r.result, att :: r.attempts, r.refreshes⟩
        | .clusterDown =>
          let r := requestGo world refreshFails budget' none (i + 1)
          ⟨r.result, att :: r.attempts, r.refreshes⟩
        | .ioError =>
          let r := requestGo world refreshFails budget' none (i + 1)
          ⟨r.result, att :: r.attempts, r.refreshes⟩
        | .other =>
          if e.retryable then
            let r := requestGo world refreshFails budget' none (i + 1)
            ⟨r.result, att :: r.attempts, r.refreshes⟩
          else ⟨.failure e, [att], 0⟩

/-- One logical blocking request: the loop entered with `retries = 0` and no
redirect. -/
def requestLoop (numberOfRetries : Nat) (world : Nat → Outcome)
    (refreshFails : Nat → Bool) : LoopTrace :=
  requestGo world refreshFails numberOfRetries none 0

/-- Target selection of the async `try_cmd_request`/`get_connection`
(`cluster_async/mod.rs:1149-1313`): a redirect overrides the routing and the
`asking` flag (`matches!(redirect, Some(Ask(_)))`) feeds one `ASKING` into
the chosen connection. -/
def asyncAttempt : Option Redirect → Attempt
  | some (.ask a) => ⟨some a, true⟩
  | some (.moved a) => ⟨some a, false⟩
  | none => ⟨none, false⟩

/-- The async request state machine, `Request::poll`
(`cluster_async/mod.rs:384-481`) together with the re-dispatch performed by
`poll_complete` on `Next::Retry` / `Next::RefreshSlots` / `Next::Reconnect`.

Same fuel convention as `requestGo` (the source responds with the error when
`request.retry >= number_of_retries`).  The crucial difference from the
blocking loop: only the `Ask`/`Moved` arms overwrite `request.info.redirect`
— the other retry paths re-dispatch the request with its `RequestInfo`
unchanged, so an earlier redirect stays in force. -/
def asyncRequestGo (world : Nat → Outcome) :
    Nat → Option Redirect → Nat → LoopTrace
  | budget, redirect, i =>
    let att := asyncAttempt redirect
    match world i with
    | .ok v => ⟨.success v, [att], 0⟩
    | .err e =>
      match budget with
      | 0 => ⟨.failure e, [att], 0⟩
      | budget' + 1 =>
        match e.kind with
        | .ask =>
          let r := asyncRequestGo world budget' (e.node.map .ask) (i + 1)
          ⟨r.result, att :: r.attempts, r.refreshes⟩
        | .moved =>
          let r := asyncRequestGo world budget' (e.node.map .moved) (i + 1)
          ⟨r.result, att :: r.attempts, r.refreshes + 1⟩
        | .tryAgain =>
          let r := asyncRequestGo world budget' redirect (i + 1)
          ⟨r.result, att :: r.attempts, r.refreshes⟩
        | .clusterDown =>
          let r := asyncRequestGo world budget' redirect (i + 1)
          ⟨r.result, att :: r.attempts, r.refreshes⟩
        | .ioError =>
          let r := asyncRequestGo world budget' redirect (i + 1)
          ⟨r.result, att :: r.attempts, r.refreshes⟩
        | .other =>
          if e.retryable then
            let r := asyncRequestGo world budget' redirect (i + 1)
            ⟨r.result, att :: r.attempts, r.refreshes⟩
          else ⟨.failure e, [att], 0⟩

/-- One logical async request: entered with `retry = 0` and
`redirect = None` (`start_send`). -/
def asyncRequestLoop (numberOfRetries : Nat) (world : Nat → Outcome) : LoopTrace :=
  asyncRequestGo world numberOfRetries none 0

/-- `get_random_connection` (`cluster.rs:712-722`): choose a random key of
the connection map.  `IteratorRandom::choose` returns `None` on an empty
map and the source calls `.expect(..)` on it — the panic is modelled by
`none`.  `pick` stands for the RNG draw. -/
def get_random_connection (connections : List (String × Nat)) (pick : Nat) :
    Option (String × Nat) :=
  connections[pick % connections.length]?

/-- Modelled from the spec: `ConnectionsContainer::random_connections`
(outside the provided sources) — "samples without replacement"; on an empty
container it yields no connections. -/
def randomConnections (connections : List (String × Nat)) (n : Nat) (pick : Nat) :
    List (String × Nat) :=
  (connections.rotateLeft (pick % (connections.length + 1))).take n

/-- The random fallback of the async `get_connection`
(`cluster_async/mod.rs:1297-1308`):
`random_connections(1, User).next().unwrap()` — the `.unwrap()` on an empty
container is the panic, modelled by `none`. -/
def asyncRandomFallback (connections : List (String × Nat)) (pick : Nat) :
    Option (String × Nat) :=
  (randomConnections connections 1 pick).head?

/-- `addr.split(':')` on the underlying characters. -/
def splitOnColon : List Char → List (List Char)
  | [] => [[]]
  | c :: rest =>
    let parts := splitOnColon rest
    if c = ':' then [] :: parts
    else
      match parts with
      | [] => [[c]]
      | p :: ps => (c :: p) :: ps

/-- Rust `str::parse::<u16>`: an optional leading `+`, then only decimal
digits, and the value must fit in 16 bits. -/
def parseU16 (s : List Char) : Option Nat :=
  let digits := match s with | '+' :: rest => rest | _ => s
  if digits = [] ∨ ¬ digits.all Char.isDigit then none
  else
    let v := digits.foldl (fun acc c => acc * 10 + (c.toNat - '0'.toNat)) 0
    if v < 65536 then some v else none

/-- `get_host_and_port_from_addr` (`cluster_async/mod.rs:2056-2064`): split
on `':'`, require exactly two parts, and parse the second as a `u16`. -/
def get_host_and_port_from_addr (addr : String) : Option (String × Nat) :=
  let parts := splitOnColon addr.data
  if parts.length ≠ 2 then none
  else
    match parts with
    | [host, port] => (parseU16 port).map fun p => (String.mk host, p)
    | _ => none

/-- `str::rsplit_once(':')`: split at the last `':'`, if any. -/
def rsplitOnceColon (s : List Char) : Option (List Char × List Char) :=
  match s.reverse.findIdx? (· = ':') with
  | none => none
  | some revIdx =>
    let idx := s.length - 1 - revIdx
    some (s.take idx, s.drop (idx + 1))

/-- `trim_start_matches('[')` then `trim_end_matches(']')`. -/
def trimBrackets (s : List Char) : List Char :=
  ((s.dropWhile (· = '[')).reverse.dropWhile (· = ']')).reverse

/-- The outcome of `get_connection_info` that the claims inspect: the host
and port of the parsed `ConnectionAddr` (credentials and TLS carry over from
the params unchanged). -/
structure ConnInfo : Type where
  host : String
  port : Nat
deriving DecidableEq, Repr

/-- Embeds `get_connection_info` (`cluster.rs:828-851`): split the node
string at the *last* `':'`, strip IPv6 brackets from the host, require a
non-empty host and a `u16` port.  The failure
`(InvalidClientConfig, "Invalid node string")` is rendered as `none`. -/
def get_connection_info (node : String) : Option ConnInfo :=
  match rsplitOnceColon node.data with
  | none => none
  | some (host, port) =>
    let trimmed := trimBrackets host
    if trimmed = [] then none
    else (parseU16 port).map fun p => ⟨String.mk trimmed, p⟩

/-- `has_dns_changed` (`cluster_async/mod.rs:1697-1708`): when the address
does not parse as `host:port` the function returns `false` — DNS-change
detection is silently skipped.  `dns` stands for `get_socket_addrs` (the
resolver, an external collaborator); `none` models a resolution failure. -/
def has_dns_changed (addr : String) (currIp : String)
    (dns : String → Nat → Option (List String)) : Bool :=
  match get_host_and_port_from_addr addr with
  | none => false
  | some (host, port) =>
    match dns host port with
    | none => false
    | some ips => ¬ ips.any (· = currIp)

/-- The Ask redirect a dispatch outcome induces: the address of an `Ask`
error that carries a redirect node, and nothing otherwise. -/
def askRedirectOf : Outcome → Option String
  | .err e => if e.kind = .ask then e.node else none
  | .ok _ => none

/-- More than one distinct view attains the maximal occurrence count: the
semantic condition under which `calculate_topology` reports (or resolves)
a tie. -/
def tieInViewMap (vm : List TopologyView) : Prop :=
  ∃ p v₁ q v₂ r, vm = p ++ v₁ :: (q ++ v₂ :: r) ∧ v₁.nodesCount = v₂.nodesCount ∧
    ∀ w ∈ vm, w.nodesCount ≤ v₁.nodesCount

/-- Concrete `CLUSTER SLOTS` response covering only slots `0..4000`
(fails the coverage check with `lacks slots > 4000`). -/
def exampleViewA : RValue :=
  .bulk [.bulk [.int 0, .int 4000, .bulk [.data "n1", .int 6379]]]

/-- Concrete `CLUSTER SLOTS` response covering only slots `0..3000`
(fails the coverage check with `lacks slots > 3000`). -/
def exampleViewB : RValue :=
  .bulk [.bulk [.int 0, .int 3000, .bulk [.data "n2", .int 6379]]]

/-- Concrete `CLUSTER SLOTS` response covering all of `0..16383`
(builds a valid slot map for node `n3`). -/
def exampleViewC : RValue :=
  .bulk [.bulk [.int 0, .int 16383, .bulk [.data "n3", .int 6379]]]

/-- Concrete stand-in for `calculate_hash`, keyed off the end slot of the
first range so the three example views hash to `0`, `1` and `2`. -/
def exampleHash : RValue → Nat
  | .bulk (RValue.bulk (_ :: RValue.int e :: _) :: _) =>
    if e = 4000 then 0 else if e = 3000 then 1 else 2
  | _ => 2

/-- Concrete sample of five node responses: views A and B are each reported
twice (tied for the maximum), view C once. -/
def exampleViews : List RValue :=
  [exampleViewA, exampleViewB, exampleViewC, exampleViewA, exampleViewB]

/-! ## Theorems -/

theorem checkChain_ok_iff_chainFrom (l : List Slot)
    (hb : ∀ sl ∈ l, sl.endSlot + 1 < 65536) :
    ∀ k, checkChain k l = .ok SLOT_SIZE ↔ chainFrom k l := by
  induction l with
  | nil =>
    intro k
    simp only [checkChain, chainFrom, Except.ok.injEq]
  | cons sl rest ih =>
    intro k
    have hsl := hb sl (List.mem_cons_self _ _)
    have hrest := fun x hx => hb x (List.mem_cons_of_mem _ hx)
    simp only [checkChain, chainFrom]
    rw [Nat.mod_eq_of_lt hsl]
    by_cases hk : k = sl.startSlot
    · simp only [hk, ne_eq, not_true_eq_false, if_false, ih hrest, true_and]
    · simp only [ne_eq, hk, not_false_eq_true, if_true]
      constructor
      · intro h
        exact Except.noConfusion h
      · intro h
        exact absurd h.1.symm hk

theorem buildSlotMap_error_preserves (m : SlotMap) (s : List Slot) (r : Bool)
    (h : ∃ e, (build_slot_map m s r).1 = .error e) : (build_slot_map m s r).2 = m := by
  obtain ⟨e, he⟩ := h
  unfold build_slot_map at he ⊢
  cases hc : checkChain 0 (sortByStart s) with
  | error e' => simp [hc]
  | ok lastSlot =>
    simp only [hc] at he ⊢
    by_cases hl : lastSlot = SLOT_SIZE
    · simp [hl] at he
    · simp [hl]

theorem chainFrom_iff_coverage (l : List Slot) (hne : l ≠ []) :
    ∀ k, chainFrom k l ↔
      ((∃ h, l.head? = some h ∧ h.startSlot = k) ∧
        List.Chain' (fun a b => b.startSlot = a.endSlot + 1) l ∧
        ∃ la, l.getLast? = some la ∧ la.endSlot = SLOT_SIZE - 1) := by
  induction l with
  | nil => exact absurd rfl hne
  | cons sl rest ih =>
    intro k
    cases rest with
    | nil =>
      simp only [chainFrom, List.head?_cons, List.chain'_singleton, List.getLast?_singleton,
        Option.some.injEq, SLOT_SIZE]
      constructor
      · rintro ⟨h1, h2⟩
        exact ⟨⟨sl, rfl, h1⟩, trivial, sl, rfl, by omega⟩
      · rintro ⟨⟨h', hh', hs⟩, -, la, hla, he⟩
        subst hh'
        subst hla
        exact ⟨hs, by omega⟩
    | cons sl' rest' =>
      have hih := ih (by simp) (sl.endSlot + 1)
      simp only [chainFrom] at hih ⊢
      rw [hih]
      simp only [List.head?_cons, Option.some.injEq, List.chain'_cons,
        List.getLast?_cons_cons]
      constructor
      · rintro ⟨h1, ⟨h2, hh2, hs2⟩, hch, hla⟩
        cases hh2
        exact ⟨⟨sl, rfl, h1⟩, ⟨hs2, hch⟩, hla⟩
      · rintro ⟨⟨h', hh', hs'⟩, ⟨hr, hch⟩, hla⟩
        cases hh'
        exact ⟨hs', ⟨sl', rfl, hr⟩, hch, hla⟩

theorem coverageSpec_iff (l : List Slot) : coverageSpec l ↔ chainFrom 0 l := by
  cases l with
  | nil =>
    simp only [coverageSpec, chainFrom, List.head?_nil]
    constructor
    · rintro ⟨⟨h, hh, -⟩, -⟩
      exact Option.noConfusion hh
    · intro h
      exact absurd h (by simp [SLOT_SIZE])
  | cons sl rest =>
    rw [chainFrom_iff_coverage (sl :: rest) (by simp) 0]
    rfl

theorem chainFrom_mem_start_ge (rest : List Slot) (k : Nat)
    (hch : chainFrom k rest) (hsort : rest.Pairwise slotStartLe) :
    ∀ y ∈ rest, k ≤ y.startSlot := by
  cases rest with
  | nil => intro y hy; exact absurd hy (by simp)
  | cons f rest' =>
    intro y hy
    obtain ⟨hf, -⟩ := hch
    rcases List.mem_cons.mp hy with h | h
    · subst h; omega
    · have := (List.pairwise_cons.mp hsort).1 y h
      unfold slotStartLe at this
      omega

theorem chainFrom_cover_unique (l : List Slot) :
    ∀ k, chainFrom k l → l.Pairwise slotStartLe →
      ∀ s, k ≤ s → s < SLOT_SIZE →
        ∃! sl, sl ∈ l ∧ sl.startSlot ≤ s ∧ s ≤ sl.endSlot := by
  induction l with
  | nil =>
    intro k hch _ s hks hs
    simp only [chainFrom] at hch
    omega
  | cons sl rest ih =>
    intro k hch hsort s hks hs
    obtain ⟨hstart, hch'⟩ := hch
    by_cases hcover : s ≤ sl.endSlot
    · refine ⟨sl, ⟨List.mem_cons_self sl rest, by omega, hcover⟩, ?_⟩
      rintro y ⟨hy, hys, hye⟩
      rcases List.mem_cons.mp hy with h | h
      · exact h
      · have := chainFrom_mem_start_ge rest (sl.endSlot + 1) hch'
          (List.pairwise_cons.mp hsort).2 y h
        omega
    · have hs' : sl.endSlot + 1 ≤ s := by omega
      obtain ⟨y, ⟨hy, hys, hye⟩, huniq⟩ :=
        ih (sl.endSlot + 1) hch' (List.pairwise_cons.mp hsort).2 s hs' hs
      refine ⟨y, ⟨List.mem_cons_of_mem sl hy, hys, hye⟩, ?_⟩
      rintro z ⟨hz, hzs, hze⟩
      rcases List.mem_cons.mp hz with h | h
      · subst h; omega
      · exact huniq z ⟨h, hzs, hze⟩

theorem buildSlotMap_ok_iff (m : SlotMap) (s : List Slot) (r : Bool)
    (hb : ∀ sl ∈ s, sl.endSlot + 1 < 65536) :
    (build_slot_map m s r).1 = .ok () ↔ chainFrom 0 (sortByStart s) := by
  have hb' : ∀ sl ∈ sortByStart s, sl.endSlot + 1 < 65536 := fun sl hsl =>
    hb sl ((List.perm_insertionSort slotStartLe s).mem_iff.mp hsl)
  rw [← checkChain_ok_iff_chainFrom (sortByStart s) hb']
  unfold build_slot_map
  cases hc : checkChain 0 (sortByStart s) with
  | error e => simp [hc]
  | ok lastSlot =>
    by_cases hl : lastSlot = SLOT_SIZE
    · simp [hc, hl]
    · simp [hc, hl, Ne.symm hl]

theorem checkChain_error_shape (l : List Slot) :
    ∀ k e, checkChain k l = .error e → ∃ p a b, e = .overlapping p a b := by
  induction l with
  | nil => intro k e h; exact Except.noConfusion h
  | cons sl rest ih =>
    intro k e h
    unfold checkChain at h
    by_cases hk : k ≠ sl.startSlot
    · simp only [if_pos hk] at h
      exact ⟨k, sl.startSlot, sl.endSlot, (Except.error.injEq _ _).mp h.symm⟩
    · simp only [if_neg hk] at h
      exact ih _ e h

theorem buildSlotMap_error_shape (m : SlotMap) (s : List Slot) (r : Bool) (e : RErr)
    (h : (build_slot_map m s r).1 = .error e) :
    (∃ p a b, e = .overlapping p a b) ∨ ∃ k, e = .lacksSlots k := by
  unfold build_slot_map at h
  cases hc : checkChain 0 (sortByStart s) with
  | error e' =>
    simp only [hc, Except.error.injEq] at h
    exact h ▸ Or.inl (checkChain_error_shape _ 0 e' hc)
  | ok lastSlot =>
    simp only [hc] at h
    by_cases hl : lastSlot = SLOT_SIZE
    · simp [hl] at h
    · simp only [if_pos hl, Except.error.injEq] at h
      exact Or.inr ⟨lastSlot, h.symm⟩

theorem buildSlotMap_ok_snd (m : SlotMap) (s : List Slot) (r : Bool)
    (h : (build_slot_map m s r).1 = .ok ()) :
    (build_slot_map m s r).2 = fillSlots (sortByStart s) r := by
  unfold build_slot_map at h ⊢
  cases hc : checkChain 0 (sortByStart s) with
  | error e => simp [hc] at h
  | ok lastSlot =>
    simp only [hc] at h ⊢
    by_cases hl : lastSlot = SLOT_SIZE
    · simp [hl]
    · simp [hl] at h

theorem fillSlots_cover_unique (sorted : List Slot) (r : Bool)
    (hch : chainFrom 0 sorted) (hsort : sorted.Pairwise slotStartLe)
    (s : Nat) (hs : s < SLOT_SIZE) :
    ∃! entry, entry ∈ fillSlots sorted r ∧ entry.startSlot ≤ s ∧ s ≤ entry.endSlot := by
  obtain ⟨sl, ⟨hmem, hs1, hs2⟩, huniq⟩ :=
    chainFrom_cover_unique sorted 0 hch hsort s (Nat.zero_le s) hs
  refine ⟨⟨sl.startSlot, sl.endSlot, ⟨sl.master,
    if r then sl.replicas else []⟩⟩, ⟨?_, hs1, hs2⟩, ?_⟩
  · exact List.mem_map.mpr ⟨sl, hmem, rfl⟩
  · rintro e ⟨he, he1, he2⟩
    obtain ⟨sl', hsl', rfl⟩ := List.mem_map.mp he
    have : sl' = sl := huniq sl' ⟨hsl', he1, he2⟩
    subst this
    rfl

/-- C2: the `u16` chain accumulator of `build_slot_map` wraps at slot
`65535` — `slot_data.end() + 1` becomes `0` in a release build (and panics
in a debug build) — so this overlapping pair of ranges, reachable from a
`CLUSTER SLOTS` reply through the `as u16` casts of `parse_slots`, is
accepted and installed even though it violates the spec's coverage rule,
and the installed map holds two distinct entries that both cover slot `0`:
the claimed success-iff-coverage equivalence and the exactly-one-primary
conclusion fail on the program. -/
theorem build_slot_map_u16_wrap :
    build_slot_map SlotMap.new [⟨0, 65535, "a:1", []⟩, ⟨0, 16383, "b:1", []⟩] false =
      (.ok (), [⟨0, 65535, ⟨"a:1", []⟩⟩, ⟨0, 16383, ⟨"b:1", []⟩⟩]) ∧
    ¬ coverageSpec (sortByStart [⟨0, 65535, "a:1", []⟩, ⟨0, 16383, "b:1", []⟩]) ∧
    ¬ (∃! entry, entry ∈ (build_slot_map SlotMap.new
          [⟨0, 65535, "a:1", []⟩, ⟨0, 16383, "b:1", []⟩] false).2 ∧
        entry.startSlot ≤ 0 ∧ 0 ≤ entry.endSlot) := by
  refine ⟨rfl, ?_, ?_⟩
  · intro h
    unfold coverageSpec at h
    obtain ⟨-, hch, -⟩ := h
    rw [show sortByStart [(⟨0, 65535, "a:1", []⟩ : Slot), ⟨0, 16383, "b:1", []⟩] =
      [⟨0, 65535, "a:1", []⟩, ⟨0, 16383, "b:1", []⟩] from rfl, List.chain'_cons] at hch
    exact absurd hch.1 (by decide)
  · rintro ⟨entry, -, huniq⟩
    have h1 : (⟨0, 65535, ⟨"a:1", []⟩⟩ : SlotMapEntry) = entry :=
      huniq _ ⟨by decide, by decide, by decide⟩
    have h2 : (⟨0, 16383, ⟨"b:1", []⟩⟩ : SlotMapEntry) = entry :=
      huniq _ ⟨by decide, by decide, by decide⟩
    rw [← h2] at h1
    exact absurd h1 (by decide)

/-- C9: when `build_slot_map` reports a coverage error, the slot map passed
to it is left exactly as it was before the call — the map is cleared and
refilled only after all checks pass. -/
theorem build_slot_map_error_leaves_map (m : SlotMap) (slots : List Slot) (r : Bool)
    (e : RErr) (h : (build_slot_map m slots r).1 = .error e) :
    (build_slot_map m slots r).2 = m :=
  buildSlotMap_error_preserves m slots r ⟨e, h⟩

/-- C9 witness: a map with one pre-existing entry survives a failed build
(input lacking the upper slots) unchanged. -/
theorem build_slot_map_error_leaves_map_witness :
    (build_slot_map [⟨0, 99, "old:1", []⟩] [⟨0, 4000, "n:1", []⟩] true).1 =
      .error (.lacksSlots 4001) ∧
    (build_slot_map [⟨0, 99, "old:1", []⟩] [⟨0, 4000, "n:1", []⟩] true).2 =
      [⟨0, 99, "old:1", []⟩] :=
  ⟨rfl, build_slot_map_error_leaves_map [⟨0, 99, "old:1", []⟩]
    [⟨0, 4000, "n:1", []⟩] true (.lacksSlots 4001) rfl⟩

theorem splitOnColon_ne_nil (l : List Char) : splitOnColon l ≠ [] := by
  cases l with
  | nil => simp [splitOnColon]
  | cons c rest =>
    unfold splitOnColon
    by_cases hc : c = ':'
    · simp [hc]
    · simp only [if_neg hc]
      cases splitOnColon rest <;> simp

theorem splitOnColon_length (l : List Char) :
    (splitOnColon l).length = l.count ':' + 1 := by
  induction l with
  | nil => rfl
  | cons c rest ih =>
    unfold splitOnColon
    by_cases hc : c = ':'
    · simp [hc, List.count_cons, ih]
    · simp only [if_neg hc]
      cases hs : splitOnColon rest with
      | nil => exact absurd hs (splitOnColon_ne_nil rest)
      | cons p ps =>
        rw [hs] at ih
        simp only [List.length_cons] at ih ⊢
        have : rest.count ':' = ps.length := by omega
        simp [List.count_cons, hc, this]

theorem get_host_and_port_none_of_count (addr : String)
    (h : addr.data.count ':' ≠ 1) : get_host_and_port_from_addr addr = none := by
  unfold get_host_and_port_from_addr
  have hl : (splitOnColon addr.data).length ≠ 2 := by
    rw [splitOnColon_length]
    omega
  simp [hl]

/-- C10: `get_host_and_port_from_addr` returns `None` for every address
whose text does not contain exactly one `':'` — in particular for the
bracketed IPv6 address `"[::1]:6379"` — while `get_connection_info` accepts
that same address (host `"::1"`, port 6379); consequently `has_dns_changed`
returns `false` for it under every DNS resolver, silently skipping
DNS-change detection. -/
theorem get_host_and_port_ipv6 :
    (∀ addr : String, addr.data.count ':' ≠ 1 →
      get_host_and_port_from_addr addr = none) ∧
    get_host_and_port_from_addr "[::1]:6379" = none ∧
    get_connection_info "[::1]:6379" = some ⟨"::1", 6379⟩ ∧
    ∀ (currIp : String) (dns : String → Nat → Option (List String)),
      has_dns_changed "[::1]:6379" currIp dns = false := by
  refine ⟨get_host_and_port_none_of_count, ?_, ?_, ?_⟩
  · rfl
  · rfl
  · intro currIp dns
    unfold has_dns_changed
    have h : get_host_and_port_from_addr "[::1]:6379" = none := rfl
    rw [h]

/-- C10 witness: the general part applied at `"10.0.0.1:6379:extra"`, which
has two colons. -/
theorem get_host_and_port_ipv6_witness :
    ("10.0.0.1:6379:extra".data.count ':' ≠ 1) ∧
    get_host_and_port_from_addr "10.0.0.1:6379:extra" = none :=
  ⟨by decide, get_host_and_port_ipv6.1 "10.0.0.1:6379:extra" (by decide)⟩

/-- C7: requesting a random connection from an empty connection container
does not produce an error value at all — `get_random_connection` has no
`None`/error path surfaced to the caller; the `choose(..).expect(..)` (and
the async `random_connections(1, User).next().unwrap()`) panic, modelled
here by `none`, which is hit exactly when the container is empty. -/
theorem get_random_connection_empty :
    get_random_connection ([] : List (String × Nat)) 0 = none ∧
    (∀ (conns : List (String × Nat)) (pick : Nat),
      get_random_connection conns pick = none ↔ conns = []) ∧
    asyncRandomFallback ([] : List (String × Nat)) 0 = none := by
  refine ⟨rfl, ?_, rfl⟩
  intro conns pick
  constructor
  · intro h
    by_contra hne
    have hlen : 0 < conns.length := List.length_pos.mpr hne
    have hlt : pick % conns.length < conns.length := Nat.mod_lt _ hlen
    rw [get_random_connection, List.getElem?_eq_getElem hlt] at h
    exact Option.noConfusion h
  · rintro rfl
    rfl

theorem pipelineFoldStep_ifForm (chosen next : Route) :
    pipelineFoldStep (some chosen) (some next) =
      if chosen.slot ≠ next.slot then .error .crossSlot
      else if chosen.slotAddr = SlotAddr.replicaOptional then .ok (some next)
      else .ok (some chosen) := rfl

theorem pipelineFold_error_crossSlot (rs : List (Option Route)) :
    ∀ acc e, pipelineFoldGo acc rs = .error e → e = .crossSlot := by
  induction rs with
  | nil => intro acc e h; exact Except.noConfusion h
  | cons x rs' ih =>
    intro acc e h
    unfold pipelineFoldGo at h
    cases acc with
    | none =>
      cases x with
      | none =>
        rw [(rfl : pipelineFoldStep none none = .ok none)] at h
        exact ih none e h
      | some next =>
        rw [(rfl : pipelineFoldStep none (some next) = .ok (some next))] at h
        exact ih _ e h
    | some chosen =>
      cases x with
      | none =>
        rw [(rfl : pipelineFoldStep (some chosen) none = .ok (some chosen))] at h
        exact ih _ e h
      | some next =>
        rw [pipelineFoldStep_ifForm] at h
        by_cases hslot : chosen.slot ≠ next.slot
        · rw [if_pos hslot] at h
          injection h with h
          exact h.symm
        · rw [if_neg hslot] at h
          by_cases haddr : chosen.slotAddr = SlotAddr.replicaOptional
          · rw [if_pos haddr] at h
            exact ih _ e h
          · rw [if_neg haddr] at h
            exact ih _ e h

theorem pipelineFold_ok_slots (rs : List (Option Route)) :
    ∀ acc r, pipelineFoldGo acc rs = .ok r →
      (∀ rt, acc = some rt → ∃ rr, r = some rr ∧ rr.slot = rt.slot) ∧
      (∀ x ∈ rs, ∀ rt, x = some rt → ∃ rr, r = some rr ∧ rr.slot = rt.slot) := by
  induction rs with
  | nil =>
    intro acc r h
    unfold pipelineFoldGo at h
    simp only [Except.ok.injEq] at h
    subst h
    exact ⟨fun rt hrt => ⟨rt, hrt, rfl⟩, fun x hx => absurd hx (by simp)⟩
  | cons x rs' ih =>
    intro acc r h
    unfold pipelineFoldGo at h
    cases acc with
    | none =>
      cases x with
      | none =>
        rw [(rfl : pipelineFoldStep none none = .ok none)] at h
        obtain ⟨ihAcc, ihMem⟩ := ih none r h
        refine ⟨fun rt hrt => absurd hrt (by simp), ?_⟩
        intro y hy rt hrt
        rcases List.mem_cons.mp hy with hh | hh
        · rw [hh] at hrt
          exact Option.noConfusion hrt
        · exact ihMem y hh rt hrt
      | some nx =>
        rw [(rfl : pipelineFoldStep none (some nx) = .ok (some nx))] at h
        obtain ⟨ihAcc, ihMem⟩ := ih _ r h
        refine ⟨fun rt hrt => absurd hrt (by simp), ?_⟩
        intro y hy rt hrt
        rcases List.mem_cons.mp hy with hh | hh
        · rw [hh] at hrt
          injection hrt with hrt
          subst hrt
          exact ihAcc _ rfl
        · exact ihMem y hh rt hrt
    | some chosen =>
      cases x with
      | none =>
        rw [(rfl : pipelineFoldStep (some chosen) none = .ok (some chosen))] at h
        obtain ⟨ihAcc, ihMem⟩ := ih _ r h
        refine ⟨fun rt hrt => ihAcc rt hrt, ?_⟩
        intro y hy rt hrt
        rcases List.mem_cons.mp hy with hh | hh
        · rw [hh] at hrt
          exact Option.noConfusion hrt
        · exact ihMem y hh rt hrt
      | some next =>
        rw [pipelineFoldStep_ifForm] at h
        by_cases hslot : chosen.slot ≠ next.slot
        · rw [if_pos hslot] at h
          exact Except.noConfusion h
        · rw [if_neg hslot] at h
          push_neg at hslot
          by_cases haddr : chosen.slotAddr = SlotAddr.replicaOptional
          · rw [if_pos haddr] at h
            obtain ⟨ihAcc, ihMem⟩ := ih _ r h
            obtain ⟨rfin, hrfin, hrslot⟩ := ihAcc next rfl
            refine ⟨?_, ?_⟩
            · intro rt hrt
              injection hrt with hrt
              subst hrt
              exact ⟨rfin, hrfin, by omega⟩
            · intro y hy rt hrt
              rcases List.mem_cons.mp hy with hh | hh
              · rw [hh] at hrt
                injection hrt with hrt
                subst hrt
                exact ⟨rfin, hrfin, hrslot⟩
              · exact ihMem y hh rt hrt
          · rw [if_neg haddr] at h
            obtain ⟨ihAcc, ihMem⟩ := ih _ r h
            obtain ⟨rfin, hrfin, hrslot⟩ := ihAcc chosen rfl
            refine ⟨?_, ?_⟩
            · intro rt hrt
              injection hrt with hrt
              subst hrt
              exact ⟨rfin, hrfin, hrslot⟩
            · intro y hy rt hrt
              rcases List.mem_cons.mp hy with hh | hh
              · rw [hh] at hrt
                injection hrt with hrt
                subst hrt
                exact ⟨rfin, hrfin, by omega⟩
              · exact ihMem y hh rt hrt

theorem addrForSlot_error_shape (slots : SlotMap) (route : Route) (e : RErr)
    (h : addrForSlot slots route = .error e) : e = .clusterDownMissingCoverage := by
  unfold addrForSlot at h
  cases hf : SlotMap.slotAddrForRoute slots route with
  | some a =>
    rw [hf] at h
    exact Except.noConfusion h
  | none =>
    rw [hf] at h
    exact ((Except.error.injEq _ _).mp h).symm

theorem get_addr_for_cmd_error_shape (slots : SlotMap) (c : CmdRouting) (n : Nat) (e : RErr)
    (h : get_addr_for_cmd slots c n = .error e) :
    e = .clusterDownMissingCoverage ∨ e = .unroutable := by
  rcases c with - | info
  · exact Or.inr ((Except.error.injEq _ _).mp h).symm
  rcases info with info | ⟨m, p⟩
  · rcases info with - | route
    · exact Or.inl (addrForSlot_error_shape slots _ e h)
    · exact Or.inl (addrForSlot_error_shape slots route e h)
  · exact Or.inr ((Except.error.injEq _ _).mp h).symm

theorem mapCmdsGo_error_shape (slots : SlotMap) (randFn : Nat → Nat)
    (cmds : List CmdRouting) :
    ∀ idx acc e, mapCmdsGo slots randFn cmds idx acc = .error e →
      e = .clusterDownMissingCoverage ∨ e = .unroutable := by
  induction cmds with
  | nil => intro idx acc e h; exact Except.noConfusion h
  | cons c rest ih =>
    intro idx acc e h
    unfold mapCmdsGo at h
    cases ha : get_addr_for_cmd slots c (randFn idx) with
    | error e' =>
      rw [ha] at h
      injection h with h
      exact h ▸ get_addr_for_cmd_error_shape slots c (randFn idx) e' ha
    | ok addr =>
      rw [ha] at h
      exact ih _ _ e h

/-- C5 (amended): in the multiplexed variant, any pipeline two of whose
commands resolve to specific routes with distinct slots is rejected by
`route_for_pipeline` with `CrossSlot` before dispatch; the blocking
variant's `map_cmds_to_nodes` performs no such check — it never produces a
`CrossSlot` error (its only errors are missing slot coverage and the
unroutable-command error), and instead maps each command to its own slot's
node. -/
theorem pipeline_cross_slot_rejection (cmds : List CmdRouting)
    (c1 c2 : CmdRouting) (r1 r2 : Route)
    (h1 : c1 ∈ cmds) (h2 : c2 ∈ cmds)
    (hr1 : routeForCommand c1 = some r1) (hr2 : routeForCommand c2 = some r2)
    (hne : r1.slot ≠ r2.slot) :
    route_for_pipeline cmds = .error .crossSlot ∧
    ∀ (slots : SlotMap) (randFn : Nat → Nat) (e : RErr),
      map_cmds_to_nodes slots cmds randFn = .error e → e ≠ .crossSlot := by
  constructor
  · cases hres : route_for_pipeline cmds with
    | ok r =>
      exfalso
      unfold route_for_pipeline at hres
      obtain ⟨-, hmem⟩ := pipelineFold_ok_slots _ none r hres
      obtain ⟨rr1, hrr1, hs1⟩ := hmem (some r1) (List.mem_map.mpr ⟨c1, h1, hr1⟩) r1 rfl
      obtain ⟨rr2, hrr2, hs2⟩ := hmem (some r2) (List.mem_map.mpr ⟨c2, h2, hr2⟩) r2 rfl
      rw [hrr1] at hrr2
      injection hrr2 with hrr2
      subst hrr2
      omega
    | error e =>
      have he : e = .crossSlot := by
        unfold route_for_pipeline at hres
        exact pipelineFold_error_crossSlot _ none e hres
      rw [he]
  · intro slots randFn e h
    unfold map_cmds_to_nodes at h
    rcases mapCmdsGo_error_shape slots randFn cmds 0 [] e h with he | he <;> simp [he]

/-- C5 counterexample: with a fully covering two-node slot map, a pipeline
whose two commands hit slots 100 and 9000 is rejected by the multiplexed
router with `CrossSlot`, yet the blocking `map_cmds_to_nodes` *succeeds*,
mapping the commands to their two nodes — so the claim that every such
pipeline fails before dispatch is false for the blocking variant. -/
theorem pipeline_cross_slot_blocking_dispatches :
    route_for_pipeline
      [some (.singleNode (.specificNode ⟨100, .master⟩)),
       some (.singleNode (.specificNode ⟨9000, .master⟩))] = .error .crossSlot ∧
    map_cmds_to_nodes
      [⟨0, 8000, ⟨"a:1", []⟩⟩, ⟨8001, 16383, ⟨"b:1", []⟩⟩]
      [some (.singleNode (.specificNode ⟨100, .master⟩)),
       some (.singleNode (.specificNode ⟨9000, .master⟩))]
      (fun _ => 0) = .ok [⟨[0], "a:1"⟩, ⟨[1], "b:1"⟩] :=
  ⟨rfl, rfl⟩

/-- C5 witness: the amended theorem applied to the concrete cross-slot
pipeline of the counterexample scenario. -/
theorem pipeline_cross_slot_rejection_witness :
    route_for_pipeline
      [some (.singleNode (.specificNode ⟨200, .master⟩)),
       some (.singleNode (.specificNode ⟨9001, .master⟩))] = .error .crossSlot ∧
    ∀ (slots : SlotMap) (randFn : Nat → Nat) (e : RErr),
      map_cmds_to_nodes slots
        [some (.singleNode (.specificNode ⟨200, .master⟩)),
         some (.singleNode (.specificNode ⟨9001, .master⟩))] randFn = .error e →
        e ≠ .crossSlot :=
  pipeline_cross_slot_rejection
    [some (.singleNode (.specificNode ⟨200, .master⟩)),
     some (.singleNode (.specificNode ⟨9001, .master⟩))]
    (some (.singleNode (.specificNode ⟨200, .master⟩)))
    (some (.singleNode (.specificNode ⟨9001, .master⟩)))
    ⟨200, .master⟩ ⟨9001, .master⟩
    (by simp) (by simp) rfl rfl (by decide)

theorem pipelineFoldStep_none (acc : Option Route) : pipelineFoldStep acc none = .ok acc := by
  cases acc <;> rfl

theorem pipelineFoldGo_skip_none (rs : List (Option Route)) :
    ∀ acc, pipelineFoldGo acc rs = pipelineFoldGo acc (rs.filter Option.isSome) := by
  induction rs with
  | nil => intro acc; rfl
  | cons x rs' ih =>
    intro acc
    cases x with
    | none =>
      have hl : pipelineFoldGo acc (none :: rs') = pipelineFoldGo acc rs' := by
        cases acc <;> rfl
      rw [hl, show (none :: rs').filter Option.isSome = rs'.filter Option.isSome from rfl]
      exact ih acc
    | some rt =>
      rw [show ((some rt) :: rs').filter Option.isSome =
        (some rt) :: rs'.filter Option.isSome from rfl]
      show (match pipelineFoldStep acc (some rt) with
            | Except.error e => Except.error e
            | Except.ok acc' => pipelineFoldGo acc' rs') =
          (match pipelineFoldStep acc (some rt) with
            | Except.error e => Except.error e
            | Except.ok acc' => pipelineFoldGo acc' (rs'.filter Option.isSome))
      cases pipelineFoldStep acc (some rt) with
      | error e => rfl
      | ok acc' => exact ih acc'

theorem route_for_pipeline_ignores_unroutable (cmds : List CmdRouting) :
    route_for_pipeline cmds =
      route_for_pipeline (cmds.filter fun c => (routeForCommand c).isSome) := by
  unfold route_for_pipeline
  rw [pipelineFoldGo_skip_none (cmds.map routeForCommand) none,
    pipelineFoldGo_skip_none ((cmds.filter fun c => (routeForCommand c).isSome).map
      routeForCommand) none]
  rw [List.filter_map, List.filter_map, List.filter_filter]
  have hpred : (fun a => (Option.isSome ∘ routeForCommand) a &&
      (routeForCommand a).isSome) = (Option.isSome ∘ routeForCommand) := by
    funext a
    simp [Function.comp]
  rw [hpred]

theorem mapCmdsGo_unroutable (slots : SlotMap) (randFn : Nat → Nat)
    (pre : List CmdRouting) (c : CmdRouting) (post : List CmdRouting)
    (hpre : ∀ x ∈ pre, ∀ n, ∃ a, get_addr_for_cmd slots x n = .ok a)
    (hc : c = none ∨ ∃ m p, c = some (.multiNode m p)) :
    ∀ idx acc, mapCmdsGo slots randFn (pre ++ c :: post) idx acc = .error .unroutable := by
  induction pre with
  | nil =>
    intro idx acc
    have hcerr : get_addr_for_cmd slots c (randFn idx) = .error .unroutable := by
      rcases hc with rfl | ⟨m, p, rfl⟩ <;> rfl
    rw [List.nil_append]
    unfold mapCmdsGo
    rw [hcerr]
  | cons x pre' ih =>
    intro idx acc
    obtain ⟨a, ha⟩ := hpre x (List.mem_cons_self x pre') (randFn idx)
    rw [List.cons_append]
    unfold mapCmdsGo
    rw [ha]
    exact ih (fun y hy n => hpre y (List.mem_cons_of_mem x hy) n) (idx + 1) _

/-- C6 (amended): in the blocking variant, a pipeline containing a command
with no routing information (or a multi-node command) fails as a whole with
the `ClientError` unroutable error, provided the commands before it resolve
to an address; in the multiplexed variant, `route_for_pipeline` does *not*
fail — unroutable commands are simply ignored when computing the pipeline's
route (the result is the same as if they were removed). -/
theorem pipeline_unroutable_command (slots : SlotMap) (randFn : Nat → Nat)
    (pre : List CmdRouting) (c : CmdRouting) (post : List CmdRouting)
    (hpre : ∀ x ∈ pre, ∀ n, ∃ a, get_addr_for_cmd slots x n = .ok a)
    (hc : c = none ∨ ∃ m p, c = some (.multiNode m p)) :
    map_cmds_to_nodes slots (pre ++ c :: post) randFn = .error .unroutable ∧
    ∀ cmds : List CmdRouting,
      route_for_pipeline cmds =
        route_for_pipeline (cmds.filter fun x => (routeForCommand x).isSome) :=
  ⟨mapCmdsGo_unroutable slots randFn pre c post hpre hc 0 [],
   route_for_pipeline_ignores_unroutable⟩

/-- C6 counterexample: a pipeline holding a single unroutable command is
*accepted* by the multiplexed `route_for_pipeline` (routing it as `Random`),
and with a routable second command the unroutable one is ignored — no
`ClientError` is raised, so the claim is false for the multiplexed
variant. -/
theorem pipeline_unroutable_async_accepted :
    route_for_pipeline [none] = .ok none ∧
    route_for_pipeline [none, some (.singleNode (.specificNode ⟨7, .master⟩))] =
      .ok (some ⟨7, .master⟩) :=
  ⟨rfl, rfl⟩

/-- C6 witness: the amended theorem at a concrete pipeline — one command on
slot 100 of a fully covering map, followed by an unroutable command. -/
theorem pipeline_unroutable_command_witness :
    map_cmds_to_nodes [⟨0, 16383, ⟨"a:1", []⟩⟩]
      ([some (.singleNode (.specificNode ⟨100, .master⟩))] ++ none :: []) (fun _ => 0) =
      .error .unroutable ∧
    ∀ cmds : List CmdRouting,
      route_for_pipeline cmds =
        route_for_pipeline (cmds.filter fun x => (routeForCommand x).isSome) :=
  pipeline_unroutable_command [⟨0, 16383, ⟨"a:1", []⟩⟩] (fun _ => 0)
    [some (.singleNode (.specificNode ⟨100, .master⟩))] none []
    (by
      intro x hx n
      simp only [List.mem_singleton] at hx
      subst hx
      exact ⟨"a:1", rfl⟩)
    (Or.inl rfl)

theorem requestGo_attempts_le (world : Nat → Outcome) (refreshFails : Nat → Bool) :
    ∀ (b : Nat) (rd : Option Redirect) (i : Nat),
      (requestGo world refreshFails b rd i).attempts.length ≤ b + 1 := by
  intro b
  induction b with
  | zero =>
    intro rd i
    unfold requestGo
    cases hw : world i with
    | ok v => simp
    | err e => simp
  | succ b ih =>
    intro rd i
    unfold requestGo
    cases hw : world i with
    | ok v => simp
    | err e =>
      obtain ⟨kind, retryable, node⟩ := e
      cases kind
      case ask =>
        simp only [List.length_cons]
        have := ih (node.map .ask) (i + 1)
        omega
      case moved =>
        by_cases hr : refreshFails i
        · simp [hr]
        · simp only [if_neg hr, List.length_cons]
          have := ih (node.map .moved) (i + 1)
          omega
      case tryAgain =>
        simp only [List.length_cons]
        have := ih none (i + 1)
        omega
      case clusterDown =>
        simp only [List.length_cons]
        have := ih none (i + 1)
        omega
      case ioError =>
        simp only [List.length_cons]
        have := ih none (i + 1)
        omega
      case other =>
        by_cases hrb : retryable
        · simp only [hrb, if_true, List.length_cons]
          have := ih none (i + 1)
          omega
        · simp [hrb]

theorem asyncRequestGo_attempts_le (world : Nat → Outcome) :
    ∀ (b : Nat) (rd : Option Redirect) (i : Nat),
      (asyncRequestGo world b rd i).attempts.length ≤ b + 1 := by
  intro b
  induction b with
  | zero =>
    intro rd i
    unfold asyncRequestGo
    cases hw : world i with
    | ok v => simp
    | err e => simp
  | succ b ih =>
    intro rd i
    unfold asyncRequestGo
    cases hw : world i with
    | ok v => simp
    | err e =>
      obtain ⟨kind, retryable, node⟩ := e
      cases kind
      case ask =>
        simp only [List.length_cons]
        have := ih (node.map .ask) (i + 1)
        omega
      case moved =>
        simp only [List.length_cons]
        have := ih (node.map .moved) (i + 1)
        omega
      case tryAgain =>
        simp only [List.length_cons]
        have := ih rd (i + 1)
        omega
      case clusterDown =>
        simp only [List.length_cons]
        have := ih rd (i + 1)
        omega
      case ioError =>
        simp only [List.length_cons]
        have := ih rd (i + 1)
        omega
      case other =>
        by_cases hrb : retryable
        · simp only [hrb, if_true, List.length_cons]
          have := ih rd (i + 1)
          omega
        · simp [hrb]

/-- C3: a single logical request performs at most `number_of_retries + 1`
dispatches, in both the blocking request loop and the async request state
machine, whatever the sequence of outcomes and refresh results. -/
theorem request_bounded_dispatches :
    (∀ (n : Nat) (world : Nat → Outcome) (refreshFails : Nat → Bool),
      (requestLoop n world refreshFails).attempts.length ≤ n + 1) ∧
    ∀ (n : Nat) (world : Nat → Outcome),
      (asyncRequestLoop n world).attempts.length ≤ n + 1 :=
  ⟨fun n world refreshFails => requestGo_attempts_le world refreshFails n none 0,
   fun n world => asyncRequestGo_attempts_le world n none 0⟩

theorem requestGo_attempts_head (world : Nat → Outcome) (refreshFails : Nat → Bool)
    (b : Nat) (rd : Option Redirect) (i : Nat) :
    (requestGo world refreshFails b rd i).attempts.head? = some (stepAttempt rd) := by
  unfold requestGo
  cases hw : world i with
  | ok v => rfl
  | err e =>
    obtain ⟨kind, retryable, node⟩ := e
    cases b with
    | zero => rfl
    | succ b =>
      cases kind
      case moved =>
        by_cases hr : refreshFails i
        · simp [hr]
        · simp [if_neg hr]
      case other =>
        by_cases hrb : retryable
        · simp [hrb]
        · simp [hrb]
      all_goals rfl

theorem asyncRequestGo_attempts_head (world : Nat → Outcome)
    (b : Nat) (rd : Option Redirect) (i : Nat) :
    (asyncRequestGo world b rd i).attempts.head? = some (asyncAttempt rd) := by
  unfold asyncRequestGo
  cases hw : world i with
  | ok v => rfl
  | err e =>
    obtain ⟨kind, retryable, node⟩ := e
    cases b with
    | zero => rfl
    | succ b =>
      cases kind
      case other =>
        by_cases hrb : retryable
        · simp [hrb]
        · simp [hrb]
      all_goals rfl

theorem requestGo_succ_asking (world : Nat → Outcome) (refreshFails : Nat → Bool) :
    ∀ (b : Nat) (rd : Option Redirect) (i j : Nat) (att : Attempt),
      (requestGo world refreshFails b rd i).attempts[j + 1]? = some att →
      ((att.asking = true ↔ ∃ a, askRedirectOf (world (i + j)) = some a) ∧
        ∀ a, askRedirectOf (world (i + j)) = some a → att.target = some a) := by
  intro b
  induction b with
  | zero =>
    intro rd i j att h
    exfalso
    unfold requestGo at h
    cases hw : world i <;> rw [hw] at h <;>
      simp only [List.getElem?_cons_succ, List.getElem?_nil] at h <;>
      exact Option.noConfusion h
  | succ b ih =>
    intro rd i j att h
    unfold requestGo at h
    cases hw : world i with
    | ok v =>
      exfalso
      rw [hw] at h
      simp only [List.getElem?_cons_succ, List.getElem?_nil] at h
      exact Option.noConfusion h
    | err e =>
      rw [hw] at h
      obtain ⟨kind, retryable, node⟩ := e
      cases kind
      case ask =>
        simp only [List.getElem?_cons_succ] at h
        cases j with
        | zero =>
          rw [← List.head?_eq_getElem? _, requestGo_attempts_head] at h
          injection h with h
          subst h
          rw [Nat.add_zero, hw]
          cases node with
          | none => simp [stepAttempt, askRedirectOf]
          | some a => simp [stepAttempt, askRedirectOf]
        | succ j' =>
          have hidx : i + 1 + j' = i + (j' + 1) := by omega
          have hres := ih (node.map .ask) (i + 1) j' att h
          rwa [hidx] at hres
      case moved =>
        by_cases hr : refreshFails i
        · exfalso
          simp only [if_pos hr, List.getElem?_cons_succ, List.getElem?_nil] at h
          exact Option.noConfusion h
        · simp only [if_neg hr, List.getElem?_cons_succ] at h
          cases j with
          | zero =>
            rw [← List.head?_eq_getElem? _, requestGo_attempts_head] at h
            injection h with h
            subst h
            rw [Nat.add_zero, hw]
            cases node with
            | none => simp [stepAttempt, askRedirectOf]
            | some a => simp [stepAttempt, askRedirectOf]
          | succ j' =>
            have hidx : i + 1 + j' = i + (j' + 1) := by omega
            have hres := ih (node.map .moved) (i + 1) j' att h
            rwa [hidx] at hres
      case tryAgain =>
        simp only [List.getElem?_cons_succ] at h
        cases j with
        | zero =>
          rw [← List.head?_eq_getElem? _, requestGo_attempts_head] at h
          injection h with h
          subst h
          rw [Nat.add_zero, hw]
          simp [stepAttempt, askRedirectOf]
        | succ j' =>
          have hidx : i + 1 + j' = i + (j' + 1) := by omega
          have hres := ih none (i + 1) j' att h
          rwa [hidx] at hres
      case clusterDown =>
        simp only [List.getElem?_cons_succ] at h
        cases j with
        | zero =>
          rw [← List.head?_eq_getElem? _, requestGo_attempts_head] at h
          injection h with h
          subst h
          rw [Nat.add_zero, hw]
          simp [stepAttempt, askRedirectOf]
        | succ j' =>
          have hidx : i + 1 + j' = i + (j' + 1) := by omega
          have hres := ih none (i + 1) j' att h
          rwa [hidx] at hres
      case ioError =>
        simp only [List.getElem?_cons_succ] at h
        cases j with
        | zero =>
          rw [← List.head?_eq_getElem? _, requestGo_attempts_head] at h
          injection h with h
          subst h
          rw [Nat.add_zero, hw]
          simp [stepAttempt, askRedirectOf]
        | succ j' =>
          have hidx : i + 1 + j' = i + (j' + 1) := by omega
          have hres := ih none (i + 1) j' att h
          rwa [hidx] at hres
      case other =>
        by_cases hrb : retryable
        · simp only [hrb, if_true, List.getElem?_cons_succ] at h
          cases j with
          | zero =>
            rw [← List.head?_eq_getElem? _, requestGo_attempts_head] at h
            injection h with h
            subst h
            rw [Nat.add_zero, hw]
            simp [stepAttempt, askRedirectOf]
          | succ j' =>
            have hidx : i + 1 + j' = i + (j' + 1) := by omega
            have hres := ih none (i + 1) j' att h
            rwa [hidx] at hres
        · exfalso
          simp only [if_neg hrb, List.getElem?_cons_succ, List.getElem?_nil] at h
          exact Option.noConfusion h

theorem requestGo_refreshes_zero (world : Nat → Outcome) (refreshFails : Nat → Bool)
    (hnm : ∀ j e, world j = .err e → e.kind ≠ .moved) :
    ∀ (b : Nat) (rd : Option Redirect) (i : Nat),
      (requestGo world refreshFails b rd i).refreshes = 0 := by
  intro b
  induction b with
  | zero =>
    intro rd i
    unfold requestGo
    cases hw : world i <;> rfl
  | succ b ih =>
    intro rd i
    unfold requestGo
    cases hw : world i with
    | ok v => rfl
    | err e =>
      obtain ⟨kind, retryable, node⟩ := e
      cases kind
      case moved => exact absurd rfl (hnm i _ hw)
      case ask => exact ih (node.map .ask) (i + 1)
      case tryAgain => exact ih none (i + 1)
      case clusterDown => exact ih none (i + 1)
      case ioError => exact ih none (i + 1)
      case other =>
        by_cases hrb : retryable
        · simp only [hrb, if_true]
          exact ih none (i + 1)
        · simp [hrb]

theorem asyncRequestGo_refreshes_zero (world : Nat → Outcome)
    (hnm : ∀ j e, world j = .err e → e.kind ≠ .moved) :
    ∀ (b : Nat) (rd : Option Redirect) (i : Nat),
      (asyncRequestGo world b rd i).refreshes = 0 := by
  intro b
  induction b with
  | zero =>
    intro rd i
    unfold asyncRequestGo
    cases hw : world i <;> rfl
  | succ b ih =>
    intro rd i
    unfold asyncRequestGo
    cases hw : world i with
    | ok v => rfl
    | err e =>
      obtain ⟨kind, retryable, node⟩ := e
      cases kind
      case moved => exact absurd rfl (hnm i _ hw)
      case ask => exact ih (node.map .ask) (i + 1)
      case tryAgain => exact ih rd (i + 1)
      case clusterDown => exact ih rd (i + 1)
      case ioError => exact ih rd (i + 1)
      case other =>
        by_cases hrb : retryable
        · simp only [hrb, if_true]
          exact ih rd (i + 1)
        · simp [hrb]

theorem asyncRequestGo_succ_ask_directed (world : Nat → Outcome) :
    ∀ (b : Nat) (rd : Option Redirect) (i j : Nat) (att : Attempt) (a : String),
      (asyncRequestGo world b rd i).attempts[j + 1]? = some att →
      askRedirectOf (world (i + j)) = some a → att = ⟨some a, true⟩ := by
  intro b
  induction b with
  | zero =>
    intro rd i j att a h ha
    exfalso
    unfold asyncRequestGo at h
    cases hw : world i <;> rw [hw] at h <;>
      simp only [List.getElem?_cons_succ, List.getElem?_nil] at h <;>
      exact Option.noConfusion h
  | succ b ih =>
    intro rd i j att a h ha
    unfold asyncRequestGo at h
    cases hw : world i with
    | ok v =>
      exfalso
      rw [hw] at h
      simp only [List.getElem?_cons_succ, List.getElem?_nil] at h
      exact Option.noConfusion h
    | err e =>
      rw [hw] at h
      obtain ⟨kind, retryable, node⟩ := e
      cases kind
      case ask =>
        simp only [List.getElem?_cons_succ] at h
        cases j with
        | zero =>
          rw [Nat.add_zero, hw] at ha
          simp only [askRedirectOf, if_pos rfl] at ha
          subst ha
          rw [← List.head?_eq_getElem? _, asyncRequestGo_attempts_head] at h
          injection h with h
          subst h
          rfl
        | succ j' =>
          have hidx : i + 1 + j' = i + (j' + 1) := by omega
          rw [← hidx] at ha
          exact ih (node.map .ask) (i + 1) j' att a h ha
      case moved =>
        simp only [List.getElem?_cons_succ] at h
        cases j with
        | zero =>
          exfalso
          rw [Nat.add_zero, hw] at ha
          simp [askRedirectOf] at ha
        | succ j' =>
          have hidx : i + 1 + j' = i + (j' + 1) := by omega
          rw [← hidx] at ha
          exact ih (node.map .moved) (i + 1) j' att a h ha
      case tryAgain =>
        simp only [List.getElem?_cons_succ] at h
        cases j with
        | zero =>
          exfalso
          rw [Nat.add_zero, hw] at ha
          simp [askRedirectOf] at ha
        | succ j' =>
          have hidx : i + 1 + j' = i + (j' + 1) := by omega
          rw [← hidx] at ha
          exact ih rd (i + 1) j' att a h ha
      case clusterDown =>
        simp only [List.getElem?_cons_succ] at h
        cases j with
        | zero =>
          exfalso
          rw [Nat.add_zero, hw] at ha
          simp [askRedirectOf] at ha
        | succ j' =>
          have hidx : i + 1 + j' = i + (j' + 1) := by omega
          rw [← hidx] at ha
          exact ih rd (i + 1) j' att a h ha
      case ioError =>
        simp only [List.getElem?_cons_succ] at h
        cases j with
        | zero =>
          exfalso
          rw [Nat.add_zero, hw] at ha
          simp [askRedirectOf] at ha
        | succ j' =>
          have hidx : i + 1 + j' = i + (j' + 1) := by omega
          rw [← hidx] at ha
          exact ih rd (i + 1) j' att a h ha
      case other =>
        by_cases hrb : retryable
        · simp only [hrb, if_true, List.getElem?_cons_succ] at h
          cases j with
          | zero =>
            exfalso
            rw [Nat.add_zero, hw] at ha
            simp [askRedirectOf] at ha
          | succ j' =>
            have hidx : i + 1 + j' = i + (j' + 1) := by omega
            rw [← hidx] at ha
            exact ih rd (i + 1) j' att a h ha
        · exfalso
          simp only [if_neg hrb, List.getElem?_cons_succ, List.getElem?_nil] at h
          exact Option.noConfusion h

theorem asyncRequestGo_sticky (world : Nat → Outcome) :
    ∀ (b : Nat) (rd : Option Redirect) (i j : Nat) (att att' : Attempt) (e : DispatchError),
      (asyncRequestGo world b rd i).attempts[j]? = some att →
      (asyncRequestGo world b rd i).attempts[j + 1]? = some att' →
      att.asking = true →
      world (i + j) = .err e →
      (e.kind = .tryAgain ∨ e.kind = .clusterDown ∨ e.kind = .ioError ∨
        (e.kind = .other ∧ e.retryable = true)) →
      att' = att := by
  intro b
  induction b with
  | zero =>
    intro rd i j att att' e h h' hask hwj hsticky
    exfalso
    unfold asyncRequestGo at h'
    cases hw : world i <;> rw [hw] at h' <;>
      simp only [List.getElem?_cons_succ, List.getElem?_nil] at h' <;>
      exact Option.noConfusion h'
  | succ b ih =>
    intro rd i j att att' e h h' hask hwj hsticky
    unfold asyncRequestGo at h h'
    cases hw : world i with
    | ok v =>
      exfalso
      rw [hw] at h'
      simp only [List.getElem?_cons_succ, List.getElem?_nil] at h'
      exact Option.noConfusion h'
    | err edata =>
      rw [hw] at h h'
      obtain ⟨kind, retryable, node⟩ := edata
      cases kind
      case ask =>
        cases j with
        | zero =>
          exfalso
          rw [Nat.add_zero, hw] at hwj
          injection hwj with hwj
          subst hwj
          rcases hsticky with h1 | h1 | h1 | ⟨h1, -⟩ <;> exact ErrKind.noConfusion h1
        | succ j' =>
          simp only [List.getElem?_cons_succ] at h h'
          have hidx : i + 1 + j' = i + (j' + 1) := by omega
          rw [← hidx] at hwj
          exact ih (node.map .ask) (i + 1) j' att att' e h h' hask hwj hsticky
      case moved =>
        cases j with
        | zero =>
          exfalso
          rw [Nat.add_zero, hw] at hwj
          injection hwj with hwj
          subst hwj
          rcases hsticky with h1 | h1 | h1 | ⟨h1, -⟩ <;> exact ErrKind.noConfusion h1
        | succ j' =>
          simp only [List.getElem?_cons_succ] at h h'
          have hidx : i + 1 + j' = i + (j' + 1) := by omega
          rw [← hidx] at hwj
          exact ih (node.map .moved) (i + 1) j' att att' e h h' hask hwj hsticky
      case tryAgain =>
        cases j with
        | zero =>
          simp only [List.getElem?_cons_zero, List.getElem?_cons_succ] at h h'
          injection h with h
          rw [← List.head?_eq_getElem? _, asyncRequestGo_attempts_head] at h'
          injection h' with h'
          rw [← h', ← h]
        | succ j' =>
          simp only [List.getElem?_cons_succ] at h h'
          have hidx : i + 1 + j' = i + (j' + 1) := by omega
          rw [← hidx] at hwj
          exact ih rd (i + 1) j' att att' e h h' hask hwj hsticky
      case clusterDown =>
        cases j with
        | zero =>
          simp only [List.getElem?_cons_zero, List.getElem?_cons_succ] at h h'
          injection h with h
          rw [← List.head?_eq_getElem? _, asyncRequestGo_attempts_head] at h'
          injection h' with h'
          rw [← h', ← h]
        | succ j' =>
          simp only [List.getElem?_cons_succ] at h h'
          have hidx : i + 1 + j' = i + (j' + 1) := by omega
          rw [← hidx] at hwj
          exact ih rd (i + 1) j' att att' e h h' hask hwj hsticky
      case ioError =>
        cases j with
        | zero =>
          simp only [List.getElem?_cons_zero, List.getElem?_cons_succ] at h h'
          injection h with h
          rw [← List.head?_eq_getElem? _, asyncRequestGo_attempts_head] at h'
          injection h' with h'
          rw [← h', ← h]
        | succ j' =>
          simp only [List.getElem?_cons_succ] at h h'
          have hidx : i + 1 + j' = i + (j' + 1) := by omega
          rw [← hidx] at hwj
          exact ih rd (i + 1) j' att att' e h h' hask hwj hsticky
      case other =>
        by_cases hrb : retryable
        · simp only [hrb, if_true] at h h'
          cases j with
          | zero =>
            simp only [List.getElem?_cons_zero, List.getElem?_cons_succ] at h h'
            injection h with h
            rw [← List.head?_eq_getElem? _, asyncRequestGo_attempts_head] at h'
            injection h' with h'
            rw [← h', ← h]
          | succ j' =>
            simp only [List.getElem?_cons_succ] at h h'
            have hidx : i + 1 + j' = i + (j' + 1) := by omega
            rw [← hidx] at hwj
            exact ih rd (i + 1) j' att att' e h h' hask hwj hsticky
        · exfalso
          simp only [if_neg hrb, List.getElem?_cons_succ, List.getElem?_nil] at h'
          exact Option.noConfusion h'

/-- C4 (amended): an `ASK(addr)` error makes the next attempt go to `addr`
with an `ASKING` command fed into the connection first, and handling the
redirect triggers no slot refresh, in both variants.  In the blocking loop
the redirect is consumed (`redirected.take()`), so an attempt carries
`ASKING` exactly when the immediately preceding dispatch returned an Ask
redirect; in the multiplexed variant the Ask redirect is kept in the
request's `RequestInfo` and survives later retryable errors
(TryAgain/ClusterDown/IoError/retryable), so `ASKING` is also fed before
those later attempts until another redirect overwrites it. -/
theorem ask_redirect_handling :
    (∀ (world : Nat → Outcome) (refreshFails : Nat → Bool) (n j : Nat) (att : Attempt),
      (requestLoop n world refreshFails).attempts[j + 1]? = some att →
      ((att.asking = true ↔ ∃ a, askRedirectOf (world j) = some a) ∧
        ∀ a, askRedirectOf (world j) = some a → att.target = some a)) ∧
    (∀ (world : Nat → Outcome) (refreshFails : Nat → Bool) (n : Nat),
      (∀ j e, world j = .err e → e.kind ≠ .moved) →
      (requestLoop n world refreshFails).refreshes = 0) ∧
    (∀ (world : Nat → Outcome) (n j : Nat) (att : Attempt) (a : String),
      (asyncRequestLoop n world).attempts[j + 1]? = some att →
      askRedirectOf (world j) = some a → att = ⟨some a, true⟩) ∧
    (∀ (world : Nat → Outcome) (n j : Nat) (att att' : Attempt) (e : DispatchError),
      (asyncRequestLoop n world).attempts[j]? = some att →
      (asyncRequestLoop n world).attempts[j + 1]? = some att' →
      att.asking = true → world j = .err e →
      (e.kind = .tryAgain ∨ e.kind = .clusterDown ∨ e.kind = .ioError ∨
        (e.kind = .other ∧ e.retryable = true)) →
      att' = att) ∧
    ∀ (world : Nat → Outcome) (n : Nat),
      (∀ j e, world j = .err e → e.kind ≠ .moved) →
      (asyncRequestLoop n world).refreshes = 0 := by
  refine ⟨?_, ?_, ?_, ?_, ?_⟩
  · intro world refreshFails n j att h
    have hres := requestGo_succ_asking world refreshFails n none 0 j att h
    rwa [Nat.zero_add] at hres
  · intro world refreshFails n hnm
    exact requestGo_refreshes_zero world refreshFails hnm n none 0
  · intro world n j att a h ha
    refine asyncRequestGo_succ_ask_directed world n none 0 j att a h ?_
    rwa [Nat.zero_add]
  · intro world n j att att' e h h' hask hwj hsticky
    refine asyncRequestGo_sticky world n none 0 j att att' e h h' hask ?_ hsticky
    rwa [Nat.zero_add]
  · intro world n hnm
    exact asyncRequestGo_refreshes_zero world hnm n none 0

/-- C4 counterexample: after `ASK b:6379` on attempt 0 and `TRYAGAIN` on
attempt 1, the multiplexed state machine sends attempt 2 *again* to
`b:6379` with `ASKING` — the redirect is sticky — whereas the blocking loop
routes attempt 2 normally without `ASKING`.  So the `ASKING`-on-that-
attempt-only part of the claim is false for the multiplexed variant. -/
theorem ask_redirect_async_sticky_counterexample :
    (asyncRequestLoop 5 (fun idx =>
      if idx = 0 then .err ⟨.ask, true, some "b:6379"⟩
      else if idx = 1 then .err ⟨.tryAgain, true, none⟩
      else .ok (.int 7))).attempts =
      [⟨none, false⟩, ⟨some "b:6379", true⟩, ⟨some "b:6379", true⟩] ∧
    (requestLoop 5 (fun idx =>
      if idx = 0 then .err ⟨.ask, true, some "b:6379"⟩
      else if idx = 1 then .err ⟨.tryAgain, true, none⟩
      else .ok (.int 7)) (fun _ => false)).attempts =
      [⟨none, false⟩, ⟨some "b:6379", true⟩, ⟨none, false⟩] :=
  ⟨rfl, rfl⟩

/-- C4 witness: the blocking characterization applied at a concrete world
whose dispatch 0 returns `ASK b:6379`: attempt 1 targets `b:6379` with
`ASKING` set. -/
theorem ask_redirect_handling_witness :
    ((⟨some "b:6379", true⟩ : Attempt).asking = true ↔
      ∃ a, askRedirectOf ((fun idx =>
        if idx = 0 then Outcome.err ⟨.ask, true, some "b:6379"⟩
        else .ok (.int 7)) 0) = some a) ∧
    ∀ a, askRedirectOf ((fun idx =>
        if idx = 0 then Outcome.err ⟨.ask, true, some "b:6379"⟩
        else .ok (.int 7)) 0) = some a →
      (⟨some "b:6379", true⟩ : Attempt).target = some a :=
  ask_redirect_handling.1
    (fun idx => if idx = 0 then .err ⟨.ask, true, some "b:6379"⟩ else .ok (.int 7))
    (fun _ => false) 5 0 ⟨some "b:6379", true⟩ rfl

theorem tryJoinAllGo_ok (vs : List RValue) :
    ∀ acc, tryJoinAllGo acc (vs.map Except.ok) = .ok (acc ++ vs) := by
  induction vs with
  | nil => intro acc; simp [tryJoinAllGo]
  | cons v vs ih =>
    intro acc
    simp only [List.map_cons, tryJoinAllGo]
    rw [ih (acc ++ [v])]
    simp

theorem tryJoinAll_ok (vs : List RValue) : tryJoinAll (vs.map Except.ok) = .ok vs := by
  unfold tryJoinAll
  rw [tryJoinAllGo_ok vs []]
  simp

theorem aggregateSumGo_ints (xs : List Int) :
    ∀ acc, aggregateSumGo acc (xs.map RValue.int) = .ok (acc + xs.sum) := by
  induction xs with
  | nil => intro acc; simp [aggregateSumGo]
  | cons x xs ih =>
    intro acc
    simp only [List.map_cons, aggregateSumGo]
    rw [ih (acc + x)]
    simp [List.sum_cons]
    omega

theorem aggregateSum_ints (xs : List Int) : aggregateSum (xs.map RValue.int) = .ok xs.sum := by
  unfold aggregateSum
  rw [aggregateSumGo_ints xs 0]
  simp

theorem executeMultiGo_all_ok (connAddrs : List String) (f : String → RValue) :
    ∀ addrs : List String,
      executeMultiGo connAddrs (fun a => .ok (f a)) addrs =
        .ok ((addrs.filter fun a => decide (a ∈ connAddrs)).map fun a => (a, f a)) := by
  intro addrs
  induction addrs with
  | nil => rfl
  | cons addr rest ih =>
    unfold executeMultiGo
    by_cases hmem : addr ∈ connAddrs
    · rw [if_pos hmem, ih]
      simp [List.filter_cons, hmem]
    · rw [if_neg hmem, ih]
      simp [List.filter_cons, hmem]

/-- C8 (amended): in the multiplexed variant, a multi-node command with
`ResponsePolicy::Aggregate(SUM)` whose targets all succeed yields the
numeric sum of the per-node responses — in particular 10, 20, 30 sum to 60;
the blocking fan-out consults no response policy and instead returns the
address-keyed array of per-node responses (skipping targets that have no
connection). -/
theorem aggregate_sum_fanout :
    (∀ (routing : MultipleNodeRoutingInfo) (pairs : List (String × Int)),
      aggregate_results (pairs.map fun p => (p.1, .ok (.int p.2))) routing
        (some (.aggregate .sum)) = .ok (.int (pairs.map Prod.snd).sum)) ∧
    aggregate_results [("a:1", .ok (.int 10)), ("b:1", .ok (.int 20)), ("c:1", .ok (.int 30))]
      .allMasters (some (.aggregate .sum)) = .ok (.int 60) ∧
    ∀ (connAddrs : List String) (slots : SlotMap) (routing : MultipleNodeRoutingInfo)
      (f : String → RValue),
      execute_on_multiple_nodes connAddrs slots routing (fun a => .ok (f a)) =
        .ok (mergeResultsValue
          (((slots.addressesForMultiRouting routing).filter
            fun a => decide (a ∈ connAddrs)).map fun a => (a, f a))) := by
  refine ⟨?_, rfl, ?_⟩
  · intro routing pairs
    unfold aggregate_results
    have hmaps : (pairs.map fun p =>
        (p.1, (Except.ok (RValue.int p.2) : Except RErr RValue))).map Prod.snd =
        ((pairs.map Prod.snd).map RValue.int).map
          (Except.ok : RValue → Except RErr RValue) := by
      simp [List.map_map, Function.comp]
    rw [hmaps, tryJoinAll_ok]
    show (aggregateSum ((pairs.map Prod.snd).map RValue.int)).map RValue.int =
      Except.ok (RValue.int (pairs.map Prod.snd).sum)
    rw [aggregateSum_ints]
    rfl
  · intro connAddrs slots routing f
    unfold execute_on_multiple_nodes
    rw [executeMultiGo_all_ok]
    rfl

/-- C8 counterexample: three primaries answer DBSIZE with 10, 20 and 30; the
blocking fan-out hands the caller the address-keyed bulk array — not the
integer 60 the claim promises. -/
theorem aggregate_sum_blocking_counterexample :
    execute_on_multiple_nodes ["a:1", "b:1", "c:1"]
      [⟨0, 5000, ⟨"a:1", []⟩⟩, ⟨5001, 10000, ⟨"b:1", []⟩⟩, ⟨10001, 16383, ⟨"c:1", []⟩⟩]
      .allMasters
      (fun a => .ok (if a = "a:1" then .int 10 else if a = "b:1" then .int 20 else .int 30)) =
      .ok (.bulk [.bulk [.data "a:1", .int 10], .bulk [.data "b:1", .int 20],
        .bulk [.data "c:1", .int 30]]) ∧
    RValue.bulk [.bulk [.data "a:1", .int 10], .bulk [.data "b:1", .int 20],
        .bulk [.data "c:1", .int 30]] ≠ .int 60 :=
  ⟨rfl, fun h => RValue.noConfusion h⟩

theorem mostFrequentStep_none (c : TopologyView) (f : Bool) :
    mostFrequentStep (none, f) c = (some c, f) := rfl

theorem mostFrequentStep_some (m c : TopologyView) (f : Bool) :
    mostFrequentStep (some m, f) c =
      if m.nodesCount < c.nodesCount then (some c, false)
      else if m.nodesCount = c.nodesCount then (some m, true) else (some m, f) := rfl

theorem mostFrequent_fold_some (l : List TopologyView) :
    ∀ (m : TopologyView) (f : Bool), ∃ m' f',
      l.foldl mostFrequentStep (some m, f) = (some m', f') ∧ (m' = m ∨ m' ∈ l) := by
  induction l with
  | nil => intro m f; exact ⟨m, f, rfl, Or.inl rfl⟩
  | cons c l ih =>
    intro m f
    rw [List.foldl_cons, mostFrequentStep_some]
    by_cases hlt : m.nodesCount < c.nodesCount
    · rw [if_pos hlt]
      obtain ⟨m', f', heq, hmem⟩ := ih c false
      refine ⟨m', f', heq, ?_⟩
      rcases hmem with rfl | hmem
      · exact Or.inr (List.mem_cons_self _ _)
      · exact Or.inr (List.mem_cons_of_mem _ hmem)
    · rw [if_neg hlt]
      by_cases heqc : m.nodesCount = c.nodesCount
      · rw [if_pos heqc]
        obtain ⟨m', f', heq, hmem⟩ := ih m true
        refine ⟨m', f', heq, ?_⟩
        rcases hmem with rfl | hmem
        · exact Or.inl rfl
        · exact Or.inr (List.mem_cons_of_mem _ hmem)
      · rw [if_neg heqc]
        obtain ⟨m', f', heq, hmem⟩ := ih m f
        refine ⟨m', f', heq, ?_⟩
        rcases hmem with rfl | hmem
        · exact Or.inl rfl
        · exact Or.inr (List.mem_cons_of_mem _ hmem)

theorem mostFrequent_fold_fst_max (l : List TopologyView) :
    ∀ (m : TopologyView) (f : Bool), (∀ c ∈ l, c.nodesCount ≤ m.nodesCount) →
      (l.foldl mostFrequentStep (some m, f)).1 = some m := by
  induction l with
  | nil => intro m f _; rfl
  | cons c l ih =>
    intro m f hle
    have hc : c.nodesCount ≤ m.nodesCount := hle c (List.mem_cons_self _ _)
    rw [List.foldl_cons, mostFrequentStep_some, if_neg (by omega)]
    by_cases heqc : m.nodesCount = c.nodesCount
    · rw [if_pos heqc]
      exact ih m true (fun x hx => hle x (List.mem_cons_of_mem _ hx))
    · rw [if_neg heqc]
      exact ih m f (fun x hx => hle x (List.mem_cons_of_mem _ hx))

theorem mostFrequent_fold_true_stays (l : List TopologyView) :
    ∀ (m : TopologyView), (∀ c ∈ l, c.nodesCount ≤ m.nodesCount) →
      l.foldl mostFrequentStep (some m, true) = (some m, true) := by
  induction l with
  | nil => intro m _; rfl
  | cons c l ih =>
    intro m hle
    have hc : c.nodesCount ≤ m.nodesCount := hle c (List.mem_cons_self _ _)
    rw [List.foldl_cons, mostFrequentStep_some, if_neg (by omega)]
    by_cases heqc : m.nodesCount = c.nodesCount
    · rw [if_pos heqc]
      exact ih m (fun x hx => hle x (List.mem_cons_of_mem _ hx))
    · rw [if_neg heqc]
      exact ih m (fun x hx => hle x (List.mem_cons_of_mem _ hx))

theorem mostFrequent_fold_tie_sets (l₁ : List TopologyView) (c : TopologyView)
    (l₂ : List TopologyView) (m : TopologyView) (f : Bool)
    (hle : ∀ x ∈ l₁ ++ c :: l₂, x.nodesCount ≤ m.nodesCount)
    (hceq : c.nodesCount = m.nodesCount) :
    (l₁ ++ c :: l₂).foldl mostFrequentStep (some m, f) = (some m, true) := by
  rw [List.foldl_append]
  have hle1 : ∀ x ∈ l₁, x.nodesCount ≤ m.nodesCount :=
    fun x hx => hle x (List.mem_append_left _ hx)
  have hfst := mostFrequent_fold_fst_max l₁ m f hle1
  obtain ⟨m', f', heq, -⟩ := mostFrequent_fold_some l₁ m f
  rw [heq] at hfst
  have hm' : m' = m := by injection hfst
  rw [hm'] at heq
  rw [heq, List.foldl_cons, mostFrequentStep_some, if_neg (by omega), if_pos hceq.symm]
  exact mostFrequent_fold_true_stays l₂ m fun x hx =>
    hle x (List.mem_append_right _ (List.mem_cons_of_mem _ hx))

theorem findMostFrequent_tie (vm : List TopologyView) (htie : tieInViewMap vm) :
    ∃ m, findMostFrequent vm = (some m, true) := by
  obtain ⟨p, v₁, q, v₂, r, hvm, hcnt, hmax⟩ := htie
  subst hvm
  unfold findMostFrequent
  cases p with
  | nil =>
    rw [List.nil_append, List.foldl_cons, mostFrequentStep_none]
    refine ⟨v₁, mostFrequent_fold_tie_sets q v₂ r v₁ false ?_ hcnt.symm⟩
    intro x hx
    exact hmax x (List.mem_cons_of_mem _ hx)
  | cons p₀ p' =>
    rw [List.cons_append, List.foldl_cons, mostFrequentStep_none,
      List.foldl_append mostFrequentStep (some p₀, false) p' (v₁ :: (q ++ v₂ :: r))]
    obtain ⟨mp, fp, heqp, hmemp⟩ := mostFrequent_fold_some p' p₀ false
    rw [heqp, List.foldl_cons, mostFrequentStep_some]
    have hmpmem : mp ∈ p₀ :: p' := by
      rcases hmemp with rfl | h
      · exact List.mem_cons_self _ _
      · exact List.mem_cons_of_mem _ h
    have hmple : mp.nodesCount ≤ v₁.nodesCount := by
      refine hmax mp ?_
      rw [List.cons_append]
      rcases List.mem_cons.mp hmpmem with rfl | h
      · exact List.mem_cons_self _ _
      · exact List.mem_cons_of_mem _ (List.mem_append_left _ h)
    have hrestle : ∀ x ∈ q ++ v₂ :: r, x.nodesCount ≤ v₁.nodesCount := by
      intro x hx
      refine hmax x ?_
      rw [List.cons_append]
      exact List.mem_cons_of_mem _
        (List.mem_append_right _ (List.mem_cons_of_mem _ hx))
    by_cases hlt : mp.nodesCount < v₁.nodesCount
    · rw [if_pos hlt]
      exact ⟨v₁, mostFrequent_fold_tie_sets q v₂ r v₁ false hrestle hcnt.symm⟩
    · have heqm : mp.nodesCount = v₁.nodesCount := by omega
      rw [if_neg hlt, if_pos heqm]
      refine ⟨mp, mostFrequent_fold_tie_sets q v₂ r mp true ?_ ?_⟩
      · intro x hx
        have := hrestle x hx
        omega
      · omega

theorem tryAllViews_cons_fail (tls : Option TlsMode) (rfr : Bool) (mapLen : Nat)
    (u : TopologyView) (rest : List TopologyView) (m : SlotMap) (e : RErr)
    (he : (build_slot_map m (parse_slots u.topologyValue tls) rfr).1 = .error e) :
    tryAllViews tls rfr mapLen (u :: rest) m =
      if u.hashValue = mapLen - 1 then .error e
      else tryAllViews tls rfr mapLen rest m := by
  have hm := buildSlotMap_error_preserves m (parse_slots u.topologyValue tls) rfr ⟨e, he⟩
  have hpair : build_slot_map m (parse_slots u.topologyValue tls) rfr = (.error e, m) :=
    Prod.ext he hm
  conv_lhs => rw [tryAllViews]
  rw [hpair]

theorem tryAllViews_cons_ok (tls : Option TlsMode) (rfr : Bool) (mapLen : Nat)
    (u : TopologyView) (rest : List TopologyView) (m M : SlotMap)
    (h : build_slot_map m (parse_slots u.topologyValue tls) rfr = (.ok (), M)) :
    tryAllViews tls rfr mapLen (u :: rest) m = .ok M := by
  unfold tryAllViews
  rw [h]

theorem tryAllViews_prefix_skip (tls : Option TlsMode) (rfr : Bool) (mapLen : Nat) :
    ∀ (pre : List TopologyView) (m : SlotMap),
      (∀ u ∈ pre,
        (∃ e, (build_slot_map m (parse_slots u.topologyValue tls) rfr).1 = .error e) ∧
        u.hashValue ≠ mapLen - 1) →
      ∀ rest, tryAllViews tls rfr mapLen (pre ++ rest) m =
        tryAllViews tls rfr mapLen rest m := by
  intro pre
  induction pre with
  | nil =>
    intro m _ rest
    rw [List.nil_append]
  | cons u pre' ih =>
    intro m hp rest
    obtain ⟨⟨e, he⟩, hhash⟩ := hp u (List.mem_cons_self _ _)
    rw [List.cons_append, tryAllViews_cons_fail tls rfr mapLen u _ m e he, if_neg hhash]
    exact ih m (fun x hx => hp x (List.mem_cons_of_mem _ hx)) rest

theorem calculate_topology_tie_branch (views : List RValue) (retries : Option Nat)
    (tls : Option TlsMode) (rfr : Bool) (queried : Nat) (hashFn : RValue → Nat)
    (htie : tieInViewMap (buildViewMap hashFn views)) :
    calculate_topology views retries tls rfr queried hashFn =
      if isLastRetry retries || decide (queried < 3) then
        tryAllViews tls rfr (buildViewMap hashFn views).length
          (buildViewMap hashFn views) SlotMap.new
      else .error .majority := by
  have hvm : buildViewMap hashFn views ≠ [] := by
    obtain ⟨p, v₁, q, v₂, r, hvmeq, -, -⟩ := htie
    rw [hvmeq]
    simp
  have hviews : views ≠ [] := by
    intro h
    rw [h] at hvm
    exact hvm rfl
  obtain ⟨m, hm⟩ := findMostFrequent_tie _ htie
  unfold calculate_topology
  rw [if_neg (by simp [hviews])]
  dsimp only
  rw [hm]
  rfl

/-- C1: corrected tie handling of `calculate_topology`.  When the collected
view map has a tie for the maximal occurrence count:
(a) if this is not the last permitted retry and at least 3 nodes were
queried, the call fails with the couldn't-get-a-majority error;
(b) otherwise ALL collected views — not only the tied ones — are tried in
map order: after any prefix of views that fail to build and whose hash
values differ from the map length minus 1, the first view that builds a
valid, fully-covering slot map is accepted;
(c) a failing view's own error is surfaced only when that view's hash value
equals the map length minus 1;
(d) if every view fails to build and no hash value equals the map length
minus 1, the scan exhausts and the couldn't-get-a-majority error is
returned, not the error of the last tried view. -/
theorem calculate_topology_tie (views : List RValue) (retries : Option Nat)
    (tls : Option TlsMode) (rfr : Bool) (queried : Nat) (hashFn : RValue → Nat)
    (htie : tieInViewMap (buildViewMap hashFn views)) :
    ((isLastRetry retries || decide (queried < 3)) = false →
      calculate_topology views retries tls rfr queried hashFn = .error .majority) ∧
    ((isLastRetry retries || decide (queried < 3)) = true →
      ∀ pre v rest M, buildViewMap hashFn views = pre ++ v :: rest →
        (∀ u ∈ pre,
          (∃ e, (build_slot_map SlotMap.new (parse_slots u.topologyValue tls) rfr).1 =
            .error e) ∧ u.hashValue ≠ (buildViewMap hashFn views).length - 1) →
        build_slot_map SlotMap.new (parse_slots v.topologyValue tls) rfr = (.ok (), M) →
        calculate_topology views retries tls rfr queried hashFn = .ok M) ∧
    ((isLastRetry retries || decide (queried < 3)) = true →
      ∀ pre v rest e, buildViewMap hashFn views = pre ++ v :: rest →
        (∀ u ∈ pre,
          (∃ e', (build_slot_map SlotMap.new (parse_slots u.topologyValue tls) rfr).1 =
            .error e') ∧ u.hashValue ≠ (buildViewMap hashFn views).length - 1) →
        (build_slot_map SlotMap.new (parse_slots v.topologyValue tls) rfr).1 = .error e →
        v.hashValue = (buildViewMap hashFn views).length - 1 →
        calculate_topology views retries tls rfr queried hashFn = .error e) ∧
    ((isLastRetry retries || decide (queried < 3)) = true →
      (∀ u ∈ buildViewMap hashFn views,
        (∃ e, (build_slot_map SlotMap.new (parse_slots u.topologyValue tls) rfr).1 =
          .error e) ∧ u.hashValue ≠ (buildViewMap hashFn views).length - 1) →
      calculate_topology views retries tls rfr queried hashFn = .error .majority) := by
  have hb := calculate_topology_tie_branch views retries tls rfr queried hashFn htie
  refine ⟨?_, ?_, ?_, ?_⟩
  · intro hc
    rw [hb, if_neg (by simp [hc])]
  · intro hc pre v rest M heq hpre hok
    rw [hb, if_pos hc, heq]
    rw [heq] at hpre
    rw [tryAllViews_prefix_skip tls rfr (pre ++ v :: rest).length pre SlotMap.new hpre
      (v :: rest)]
    exact tryAllViews_cons_ok tls rfr _ v rest SlotMap.new M hok
  · intro hc pre v rest e heq hpre hfail hhash
    rw [hb, if_pos hc, heq]
    rw [heq] at hpre hhash
    rw [tryAllViews_prefix_skip tls rfr (pre ++ v :: rest).length pre SlotMap.new hpre
      (v :: rest), tryAllViews_cons_fail tls rfr _ v rest SlotMap.new e hfail,
      if_pos hhash]
  · intro hc hall
    rw [hb, if_pos hc]
    have h := tryAllViews_prefix_skip tls rfr (buildViewMap hashFn views).length
      (buildViewMap hashFn views) SlotMap.new hall []
    rw [List.append_nil] at h
    rw [h]
    rfl

/-- C1 counterexample: with views A and B each sampled twice (tied for the
maximal count of 2) and view C sampled once, on the last retry the tied
views both fail to build, yet `calculate_topology` succeeds with view C's
slot map — an untied view is tried and accepted, refuting "the tied views
(and only the tied views) are tried"; both tied views fail yet neither
failure is surfaced, refuting "the error of the last tried view is
surfaced". -/
theorem calculate_topology_tie_counterexample :
    calculate_topology exampleViews (some 1) none false 5 exampleHash =
      .ok [⟨0, 16383, ⟨"n3:6379", []⟩⟩] ∧
    (buildViewMap exampleHash exampleViews).map TopologyView.nodesCount = [2, 2, 1] ∧
    (build_slot_map SlotMap.new (parse_slots exampleViewA none) false).1 =
      .error (.lacksSlots 4001) ∧
    (build_slot_map SlotMap.new (parse_slots exampleViewB none) false).1 =
      .error (.lacksSlots 3001) :=
  ⟨rfl, rfl, rfl, rfl⟩

/-- C1 witness: the corrected theorem instantiated on the concrete example —
a tie while fewer than 3 nodes were queried, a failing prefix of both tied
views whose hashes differ from the map length minus 1, and acceptance of
the untied view C. -/
theorem calculate_topology_tie_witness :
    calculate_topology exampleViews (some 1) none false 2 exampleHash =
      .ok [⟨0, 16383, ⟨"n3:6379", []⟩⟩] := by
  have h := (calculate_topology_tie exampleViews (some 1) none false 2 exampleHash
    ⟨[], ⟨0, exampleViewA, 2⟩, [], ⟨1, exampleViewB, 2⟩, [⟨2, exampleViewC, 1⟩],
      rfl, rfl, by decide⟩).2.1
  exact h rfl [⟨0, exampleViewA, 2⟩, ⟨1, exampleViewB, 2⟩] ⟨2, exampleViewC, 1⟩ []
    [⟨0, 16383, ⟨"n3:6379", []⟩⟩] rfl
    (by
      intro u hu
      rcases List.mem_cons.mp hu with rfl | hu
      · exact ⟨⟨.lacksSlots 4001, rfl⟩, by decide⟩
      rcases List.mem_cons.mp hu with rfl | hu
      · exact ⟨⟨.lacksSlots 3001, rfl⟩, by decide⟩
      · exact absurd hu (List.not_mem_nil u))
    rfl
